import Mathlib

/-!
# ptrace-injector: a shallow embedding of `src/Memory.c`

The C functions of `Memory.c` are rendered as Lean functions.  Machine words
(`uintptr_t`, `size_t`, the fields of `struct user_regs_struct`) are natural
numbers taken modulo `2 ^ 64`; C character data is `List Char`; everything the
operating system answers (the contents of `/proc`, the results of `ptrace`,
`waitpid` and `process_vm_writev`) is an explicit input.
-/

namespace PtraceInjector

/-! ## Machine words -/

/-- Number of values of a 64-bit word (`uintptr_t`, `size_t`, a register). -/
def U64 : Nat := 18446744073709551616

/-- Unsigned 64-bit subtraction `a - b`. -/
def sub64 (a b : Nat) : Nat := ((U64 - b % U64) + a) % U64

/-- Unsigned 64-bit addition `a + b`. -/
def add64 (a b : Nat) : Nat := (a + b) % U64

/-- The conversion `(ssize_t)x` of a `size_t` value (two's complement). -/
def toSsize (x : Nat) : Int :=
  if x % U64 < 9223372036854775808 then ((x % U64 : Nat) : Int) else ((x % U64 : Nat) : Int) - (U64 : Int)

/-! ## The register file (`struct user_regs_struct` of `<sys/user.h>`, x86-64) -/

/-- The 27 fields of `struct user_regs_struct`, in declaration order. -/
structure Regs where
  r15 : Nat
  r14 : Nat
  r13 : Nat
  r12 : Nat
  rbp : Nat
  rbx : Nat
  r11 : Nat
  r10 : Nat
  r9 : Nat
  r8 : Nat
  rax : Nat
  rcx : Nat
  rdx : Nat
  rsi : Nat
  rdi : Nat
  orig_rax : Nat
  rip : Nat
  cs : Nat
  eflags : Nat
  rsp : Nat
  ss : Nat
  fs_base : Nat
  gs_base : Nat
  ds : Nat
  es : Nat
  fs : Nat
  gs : Nat
  deriving DecidableEq, Repr

/-! ## `remote_call`: stack alignment (lines 278-280) -/

/-- `uintptr_t space = sizeof(uintptr_t)`. -/
def space : Nat := 8

/-- Loop condition `((temp_registers.rsp - space - 8) & 0xF) != 0`. -/
def alignCond (rsp : Nat) : Bool := (sub64 (sub64 rsp space) 8) &&& 0xF != 0

/-- The loop `while (((rsp - space - 8) & 0xF) != 0) rsp--;`.  `fuel` bounds the
number of times the body may run; `none` means the bound was hit with the
condition still true. -/
def alignLoop : Nat → Nat → Option Nat
  | fuel, rsp =>
    if alignCond rsp then
      match fuel with
      | 0 => none
      | f + 1 => alignLoop f (sub64 rsp 1)
    else some rsp

/-! ## C strings and the C library functions used by `Memory.c` -/

/-- The terminating byte of a C string. -/
def NUL : Char := Char.ofNat 0

/-- The C string stored in a character array: the characters before the first
NUL. -/
def cstr (s : List Char) : List Char := s.takeWhile (fun c => c != NUL)

/-- Tests whether `pat` occurs at the very start of `s`. -/
def startsWith : List Char → List Char → Bool
  | _, [] => true
  | [], _ :: _ => false
  | c :: cs, p :: ps => c == p && startsWith cs ps

/-- Search of `strstr` over two NUL-free texts: the suffix of `s` that starts
at the first occurrence of `pat`. -/
def findSub (pat : List Char) : List Char → Option (List Char)
  | [] => if pat.isEmpty then some [] else none
  | c :: cs => if startsWith (c :: cs) pat then some (c :: cs) else findSub pat cs

/-- C library `strstr(haystack, needle)`: `none` is the null pointer. -/
def strstr (haystack needle : List Char) : Option (List Char) :=
  findSub (cstr needle) (cstr haystack)

/-- C library `strchr(s, c)` for a character `c` other than NUL: the suffix of
the C string `s` that starts at the first `c`; `none` is the null pointer. -/
def strchr (s : List Char) (c : Char) : Option (List Char) :=
  match (cstr s).dropWhile (fun d => d != c) with
  | [] => none
  | t => some t

/-- C library `strcmp(a, b) == 0`. -/
def strcmp_eq (a b : List Char) : Bool := cstr a == cstr b

/-- The successive results of `fgets(buf, size, fp)` on a stream holding the
characters of the second argument, until `fgets` returns NULL: each result is
cut after a newline or after `size - 1` characters.  `room` is the space left
in the buffer and `cur` the characters read into it so far. -/
def fgetsLines (size : Nat) : List Char → Nat → List Char → List (List Char)
  | [], _, cur => if cur.isEmpty then [] else [cur]
  | c :: cs, room, cur =>
    if c = '\n' ∨ room ≤ 1 then (cur ++ [c]) :: fgetsLines size cs (size - 1) []
    else fgetsLines size cs (room - 1) (cur ++ [c])

/-- All lines that a `while (fgets(line, size, fp))` loop sees on a fresh
stream. -/
def fileLines (size : Nat) (content : List Char) : List (List Char) :=
  fgetsLines size content (size - 1) []

/-- White space as skipped by `scanf` and `strtol` (`isspace`, C locale). -/
def isSpace (c : Char) : Bool :=
  c == ' ' || c == '\t' || c == '\n' || c == Char.ofNat 11 || c == Char.ofNat 12 || c == '\r'

/-- Value of a hexadecimal digit. -/
def hexDigit (c : Char) : Option Nat :=
  if '0' ≤ c ∧ c ≤ '9' then some (c.toNat - 48)
  else if 'a' ≤ c ∧ c ≤ 'f' then some (c.toNat - 87)
  else if 'A' ≤ c ∧ c ≤ 'F' then some (c.toNat - 55)
  else none

/-- Reads the longest run of hexadecimal digits, accumulating their value onto
`acc`; returns the value, the number of digits read and the unread input. -/
def scanHexDigits : List Char → Nat → Nat → Nat × Nat × List Char
  | [], acc, n => (acc, n, [])
  | c :: cs, acc, n =>
    match hexDigit c with
    | some d => scanHexDigits cs (acc * 16 + d) (n + 1)
    | none => (acc, n, c :: cs)

/-- Skips leading white space. -/
def skipSpace (s : List Char) : List Char := s.dropWhile isSpace

/-- Reads an optional sign: whether it was a minus, and the unread input. -/
def scanSign : List Char → Bool × List Char
  | '-' :: cs => (true, cs)
  | '+' :: cs => (false, cs)
  | s => (false, s)

/-- Skips an optional `0x` or `0X`. -/
def skipHexMark : List Char → List Char
  | '0' :: 'x' :: cs => cs
  | '0' :: 'X' :: cs => cs
  | s => s

/-- Whether the input starts with `0x` or `0X`. -/
def hasHexMark : List Char → Bool
  | '0' :: 'x' :: _ => true
  | '0' :: 'X' :: _ => true
  | _ => false

/-- The `%lx` conversion of `sscanf` in glibc: white space, an optional sign,
an optional `0x`, then hexadecimal digits.  With no digit at all the
conversion fails, except behind a `0x`, which glibc consumes and reads as 0.
A value that does not fit 64 bits reads as `ULONG_MAX`; a minus sign negates
modulo `2 ^ 64`.  Returns the value and the unread input, or `none` on a
matching failure. -/
def scan_lx (s : List Char) : Option (Nat × List Char) :=
  match scanSign (skipSpace s) with
  | (neg, s) =>
    match scanHexDigits (skipHexMark s) 0 0 with
    | (_, 0, rest) => if hasHexMark s then some (0, rest) else none
    | (v, _, rest) =>
      if U64 ≤ v then some (U64 - 1, rest)
      else some (if neg then sub64 0 v else v, rest)

/-- The call `sscanf(line, "%lx-", &start_address)`: the new value of
`start_address`, or `none` when nothing is assigned. -/
def sscanf_start (line : List Char) : Option Nat :=
  (scan_lx (cstr line)).map Prod.fst

/-- The call `sscanf(line, "%lx-%lx ", &start_address, &end_address)`: the
values assigned to the two variables, `none` for a variable left
unassigned. -/
def sscanf_range (line : List Char) : Option Nat × Option Nat :=
  match scan_lx (cstr line) with
  | none => (none, none)
  | some (a, '-' :: rest) =>
    (match scan_lx rest with
     | none => (some a, none)
     | some (b, _) => (some a, some b))
  | some (a, _) => (some a, none)

/-- Value of a decimal digit. -/
def decDigit (c : Char) : Option Nat :=
  if '0' ≤ c ∧ c ≤ '9' then some (c.toNat - 48) else none

/-- Reads the longest run of decimal digits, accumulating onto `acc`. -/
def scanDecDigits : List Char → Nat → Nat
  | [], acc => acc
  | c :: cs, acc =>
    match decDigit c with
    | some d => scanDecDigits cs (acc * 10 + d)
    | none => acc

/-- Truncation of an integer to `int` (32 bits, two's complement). -/
def toInt32 (x : Int) : Int :=
  let m := x % 4294967296
  if m < 2147483648 then m else m - 4294967296

/-- C library `atoi`, which glibc defines as `(int) strtol(s, NULL, 10)`:
white space, an optional sign and decimal digits; no digits read as 0; the
`long` result saturates at `LONG_MIN` and `LONG_MAX` before the cast. -/
def atoi (s : List Char) : Int :=
  match scanSign (skipSpace (cstr s)) with
  | (neg, s) =>
    let v : Int := scanDecDigits s 0
    let l : Int := if neg then max (-v) (-9223372036854775808) else min v 9223372036854775807
    toInt32 l

/-! ## `get_process_id` (lines 56-99) -/

/-- The `/proc` directory as `get_process_id` sees it: the entry names in the
order `readdir` returns them, and the contents of `/proc/<pid>/cmdline` for
each pid (`none` when `fopen` fails). -/
structure ProcDir where
  entries : List (List Char)
  cmdline : Int → Option (List Char)

/-- The C string left in `char cmdline[128] = {0}` by
`fgets(cmdline, sizeof(cmdline), fp)`: the first chunk of the file, or the
empty string when the file is empty. -/
def cmdlineBuffer (content : List Char) : List Char :=
  match fileLines 128 content with
  | [] => []
  | chunk :: _ => cstr chunk

/-- The `while ((entry = readdir(dir)) != NULL)` loop: the final value of
`pid`, which starts at -1. -/
def get_process_id_loop (d : ProcDir) (command_line_content : List Char) : List (List Char) → Int
  | [] => -1
  | d_name :: rest =>
    let entry_pid := atoi d_name
    if entry_pid > 0 then
      match d.cmdline entry_pid with
      | none => get_process_id_loop d command_line_content rest
      | some content =>
        if strcmp_eq (cmdlineBuffer content) command_line_content then entry_pid
        else get_process_id_loop d command_line_content rest
    else get_process_id_loop d command_line_content rest

/-- Translation of `get_process_id`; `dir` is `none` when `opendir` fails. -/
def get_process_id (dir : Option ProcDir) (command_line_content : List Char) : Int :=
  if cstr command_line_content = [] then 1
  else
    match dir with
    | none => 1
    | some d =>
      let pid := get_process_id_loop d command_line_content d.entries
      if pid = -1 then 1 else pid

/-! ## `get_base` (lines 108-150) -/

/-- The two spellings of a maps file that `Memory.c` opens. -/
inductive MapsPath where
  | self
  | pid (p : Int)
  deriving DecidableEq, Repr

/-- The `while (fgets(line, sizeof(line), fp))` loop of `get_base`: the final
value of `start_address`, which starts at 0. -/
def get_base_loop (module_name : List Char) : List (List Char) → Nat
  | [] => 0
  | line :: rest =>
    if (strstr line module_name).isSome then
      match sscanf_start line with
      | some v => v
      | none => 0
    else get_base_loop module_name rest

/-- Translation of `get_base`.  `maps` gives the contents of a maps file, or
`none` when `fopen` fails. -/
def get_base (maps : MapsPath → Option (List Char)) (pid : Int) (module_name : List Char)
    (is_local : Int) : Nat :=
  if cstr module_name = [] then 1
  else
    match maps (if is_local = 1 then MapsPath.self else MapsPath.pid pid) with
    | none => 1
    | some content =>
      let start_address := get_base_loop module_name (fileLines 512 content)
      if start_address = 0 then 1 else start_address

/-! ## `read_memory` and `write_memory` (lines 160-184) -/

/-- Translation of `read_memory`; `process_vm_readv` is the value the system
call returns (a byte count, or -1). -/
def read_memory (process_vm_readv : Int) (length : Nat) : Int :=
  if process_vm_readv = toSsize length then 0 else 1

/-- Translation of `write_memory`; `process_vm_writev` is the value the
system call returns (a byte count, or -1). -/
def write_memory (process_vm_writev : Int) (length : Nat) : Int :=
  if process_vm_writev = toSsize length then 0 else 1

/-! ## `get_local_module_name` (lines 192-228) -/

/-- Result of `get_local_module_name`. -/
inductive ModuleName where
  /-- Returns 0 with this text copied to `module_name`. -/
  | found (module_name : List Char)
  /-- Returns 1. -/
  | missing
  /-- The comparison read `start_address` or `end_address` while `sscanf` had
  left it unassigned. -/
  | undefined
  deriving DecidableEq, Repr

/-- The text `strcpy` copies from `lib_path` after
`*strchr(lib_path, '\n') = '\0'`. -/
def cutNewline (lib_path : List Char) : List Char :=
  lib_path.takeWhile (fun c => c != '\n')

/-- The `while (fgets(line, sizeof(line), fp))` loop of
`get_local_module_name`. -/
def get_local_module_name_loop (address : Nat) : List (List Char) → ModuleName
  | [] => ModuleName.missing
  | line :: rest =>
    match sscanf_range line with
    | (none, _) => ModuleName.undefined
    | (some start_address, end_address) =>
      if address ≥ start_address then
        match end_address with
        | none => ModuleName.undefined
        | some end_address =>
          if address ≤ end_address then
            match strchr line '/' with
            | some lib_path => ModuleName.found (cutNewline lib_path)
            | none => get_local_module_name_loop address rest
          else get_local_module_name_loop address rest
      else get_local_module_name_loop address rest

/-- Translation of `get_local_module_name`; `getpid` is the caller's pid. -/
def get_local_module_name (maps : MapsPath → Option (List Char)) (getpid : Int)
    (address : Nat) : ModuleName :=
  match maps (MapsPath.pid getpid) with
  | none => ModuleName.missing
  | some content => get_local_module_name_loop address (fileLines 512 content)

/-! ## `get_remote_function_address` (lines 236-247) -/

/-- Translation of `get_remote_function_address`. -/
def get_remote_function_address (maps : MapsPath → Option (List Char)) (g_pid : Int)
    (module_name : List Char) (local_function_address : Nat) : Nat :=
  let local_module_address := get_base maps g_pid module_name 1
  let remote_module_address := get_base maps g_pid module_name 0
  if remote_module_address = 1 ∨ local_module_address = 1 then 1
  else add64 (sub64 local_function_address local_module_address) remote_module_address

/-! ## `remote_call` (lines 256-358) -/

/-- `SIGSEGV` of `<signal.h>` on Linux. -/
def SIGSEGV : Int := 11

/-- `SIGILL` of `<signal.h>` on Linux. -/
def SIGILL : Int := 4

/-- One report of `waitpid(g_pid, &status, WUNTRACED)`: the value returned,
what the `<sys/wait.h>` macros say about `status`, the register file of the
target at that moment, and the result of the `PTRACE_CONT` that follows if
the loop goes round again. -/
structure WaitEvent where
  wp : Int
  wifstopped : Bool
  wstopsig : Int
  wifexited : Bool
  wifsignaled : Bool
  regs : Regs
  cont : Int
  deriving DecidableEq, Repr

/-- Everything outside the caller that one `remote_call` depends on. -/
structure World where
  /-- Value of `getpid()`. -/
  getpid : Int
  /-- The global `g_pid`. -/
  g_pid : Int
  /-- Contents of the maps files, `none` when `fopen` fails. -/
  maps : MapsPath → Option (List Char)
  /-- Register file of the stopped target when `remote_call` is entered. -/
  target : Regs
  /-- Result of the first `ptrace(PTRACE_GETREGS)`. -/
  getregs : Int
  /-- Result of `process_vm_writev` for the return address. -/
  process_vm_writev : Int
  /-- Result of the first `ptrace(PTRACE_SETREGS)`. -/
  setregs : Int
  /-- Result of the first `ptrace(PTRACE_CONT)`. -/
  cont : Int
  /-- The reports of `waitpid`, in order; the target never reports again
  after the last one. -/
  waits : List WaitEvent
  /-- Result of the second `ptrace(PTRACE_GETREGS)`. -/
  getregs_return : Int
  /-- Result of the second `ptrace(PTRACE_SETREGS)`. -/
  setregs_restore : Int

/-- The system calls `remote_call` issues on the target. -/
inductive Call where
  | getregs
  | setregs (regs : Regs)
  /-- `ptrace(PTRACE_CONT, g_pid, NULL, sig)`. -/
  | cont (sig : Nat)
  | waitpid
  /-- `process_vm_writev` of the word `value` to `address`. -/
  | write (address : Nat) (value : Nat) (length : Nat)
  deriving DecidableEq, Repr

/-- The `return 1` statements of `remote_call`, by the step that failed. -/
inductive Failure where
  | module_name
  | symbol
  | getregs
  | return_address
  | setregs
  | cont
  | waitpid
  | exited
  | terminated
  | cont_again
  | getregs_return
  | restore
  deriving DecidableEq, Repr

/-- How a `remote_call` ends. -/
inductive Outcome where
  /-- The statement `return return_registers.rax`. -/
  | value (rax : Nat)
  /-- A statement `return 1`. -/
  | error (site : Failure)
  /-- A loop never ends: `waitpid` blocks for ever. -/
  | hang
  /-- An unassigned variable was read, or `va_arg` ran past the arguments. -/
  | undefined
  deriving DecidableEq, Repr

/-- The value `remote_call` returns to its caller, if it returns. -/
def Outcome.returned : Outcome → Option Nat
  | Outcome.value rax => some rax
  | Outcome.error _ => some 1
  | Outcome.hang => none
  | Outcome.undefined => none

/-- What an execution of `remote_call` leaves behind. -/
structure Result where
  outcome : Outcome
  /-- Register file of the target at the end. -/
  target : Regs
  /-- System calls issued on the target, in order. -/
  trace : List Call
  deriving DecidableEq, Repr

/-- The `switch (i)` that stores one argument. -/
def set_argument (i : Nat) (argument : Nat) (r : Regs) : Regs :=
  match i with
  | 0 => { r with rdi := argument }
  | 1 => { r with rsi := argument }
  | 2 => { r with rdx := argument }
  | 3 => { r with rcx := argument }
  | 4 => { r with r8 := argument }
  | 5 => { r with r9 := argument }
  | _ => r

/-- The loop `for (int i = 0; i < count && i < 6; i++)` with `6 - i` as first
argument (so `i < 6` is `0 < k`) and the unread variadic arguments as `ap`;
`none` when `va_arg` is called with no argument left. -/
def marshalLoop (count : Int) : Nat → List Nat → Regs → Option Regs
  | 0, _, r => some r
  | k + 1, ap, r =>
    if ((5 - k : Nat) : Int) < count then
      match ap with
      | [] => none
      | argument :: ap => marshalLoop count k ap (set_argument (5 - k) argument r)
    else some r

/-- How the `for (;;)` loop is left. -/
inductive WaitExit where
  | faulted
  | failed (site : Failure)
  | blocked
  deriving DecidableEq, Repr

/-- The `for (;;)` wait loop (lines 318-344) over the reports still to come.
Returns how the loop is left, the register file of the target then, and the
system calls issued. -/
def wait_loop (g_pid : Int) : List WaitEvent → Regs → WaitExit × Regs × List Call
  | [], target => (WaitExit.blocked, target, [Call.waitpid])
  | e :: es, _ =>
    if e.wp ≠ g_pid then (WaitExit.failed Failure.waitpid, e.regs, [Call.waitpid])
    else if e.wifstopped && (e.wstopsig == SIGSEGV || e.wstopsig == SIGILL) then
      (WaitExit.faulted, e.regs, [Call.waitpid])
    else if e.wifexited then (WaitExit.failed Failure.exited, e.regs, [Call.waitpid])
    else if e.wifsignaled then (WaitExit.failed Failure.terminated, e.regs, [Call.waitpid])
    else if e.cont = -1 then
      (WaitExit.failed Failure.cont_again, e.regs, [Call.waitpid, Call.cont 0])
    else
      match wait_loop g_pid es e.regs with
      | (x, target, calls) => (x, target, Call.waitpid :: Call.cont 0 :: calls)

/-- Puts the system calls of the earlier steps in front of a result. -/
def Result.after (calls : List Call) (r : Result) : Result :=
  ⟨r.outcome, r.target, calls ++ r.trace⟩

/-- Lines 347-357 of `remote_call`: read the registers for the return value,
then write `original_registers` back.  `target` is the register file of the
target when the wait loop was left. -/
def remote_call_restore (w : World) (original_registers target : Regs) : Result :=
  if w.getregs_return = -1 then
    ⟨Outcome.error Failure.getregs_return, target, [Call.getregs]⟩
  else
    let return_registers := target
    if w.setregs_restore = -1 then
      ⟨Outcome.error Failure.restore, target, [Call.getregs, Call.setregs original_registers]⟩
    else
      ⟨Outcome.value return_registers.rax, original_registers,
        [Call.getregs, Call.setregs original_registers]⟩

/-- Lines 312-345 of `remote_call`: resume the target, which now holds
`temp_registers`, and wait for it. -/
def remote_call_wait (w : World) (original_registers temp_registers : Regs) : Result :=
  if w.cont = -1 then ⟨Outcome.error Failure.cont, temp_registers, [Call.cont 0]⟩
  else
    match wait_loop w.g_pid w.waits temp_registers with
    | (WaitExit.blocked, target, calls) => ⟨Outcome.hang, target, Call.cont 0 :: calls⟩
    | (WaitExit.failed site, target, calls) => ⟨Outcome.error site, target, Call.cont 0 :: calls⟩
    | (WaitExit.faulted, target, calls) =>
      (remote_call_restore w original_registers target).after (Call.cont 0 :: calls)

/-- Lines 297-310 of `remote_call`: reserve the slot of the return address,
write `return_address` (which is 0) there, set `rip`, `rax` and `orig_rax`,
and install the registers.  `marshalled` is `temp_registers` after the
argument loop. -/
def remote_call_install (w : World) (original_registers marshalled : Regs)
    (remote_symbol_address : Nat) : Result :=
  let pushed := { marshalled with rsp := sub64 marshalled.rsp 8 }
  if write_memory w.process_vm_writev 8 ≠ 0 then
    ⟨Outcome.error Failure.return_address, w.target, [Call.write pushed.rsp 0 8]⟩
  else
    let temp_registers := { pushed with rip := remote_symbol_address, rax := 1, orig_rax := 0 }
    if w.setregs = -1 then
      ⟨Outcome.error Failure.setregs, w.target,
        [Call.write pushed.rsp 0 8, Call.setregs temp_registers]⟩
    else
      (remote_call_wait w original_registers temp_registers).after
        [Call.write pushed.rsp 0 8, Call.setregs temp_registers]

/-- Lines 271-295 of `remote_call`: read the registers, keep a copy, align the
stack pointer and store the arguments. -/
def remote_call_prepare (w : World) (remote_symbol_address : Nat) (count : Int)
    (args : List Nat) : Result :=
  if w.getregs = -1 then ⟨Outcome.error Failure.getregs, w.target, [Call.getregs]⟩
  else
    let temp_registers := w.target
    let original_registers := temp_registers
    match alignLoop U64 temp_registers.rsp with
    | none => ⟨Outcome.hang, w.target, [Call.getregs]⟩
    | some rsp =>
      match marshalLoop count 6 args { temp_registers with rsp := rsp } with
      | none => ⟨Outcome.undefined, w.target, [Call.getregs]⟩
      | some marshalled =>
        (remote_call_install w original_registers marshalled remote_symbol_address).after
          [Call.getregs]

/-- Translation of `remote_call`: lines 262-269, then the steps above in
order. -/
def remote_call (w : World) (function_pointer : Nat) (count : Int) (args : List Nat) : Result :=
  match get_local_module_name w.maps w.getpid function_pointer with
  | ModuleName.undefined => ⟨Outcome.undefined, w.target, []⟩
  | ModuleName.missing => ⟨Outcome.error Failure.module_name, w.target, []⟩
  | ModuleName.found module_name =>
    let remote_symbol_address :=
      get_remote_function_address w.maps w.g_pid module_name function_pointer
    if remote_symbol_address = 1 then ⟨Outcome.error Failure.symbol, w.target, []⟩
    else remote_call_prepare w remote_symbol_address count args

/-! ## Observations on a trace -/

/-- The register file given to the first `PTRACE_SETREGS` of a trace: the
working copy that `remote_call` installs. -/
def installed : List Call → Option Regs
  | [] => none
  | Call.setregs regs :: _ => some regs
  | _ :: rest => installed rest

/-- The register files given to `PTRACE_SETREGS`, in order. -/
def setregsCalls : List Call → List Regs
  | [] => []
  | Call.setregs regs :: rest => regs :: setregsCalls rest
  | _ :: rest => setregsCalls rest

/-- The register of the System V calling convention that carries integer
argument `i`. -/
def argument_register (i : Nat) (r : Regs) : Nat :=
  match i with
  | 0 => r.rdi
  | 1 => r.rsi
  | 2 => r.rdx
  | 3 => r.rcx
  | 4 => r.r8
  | _ => r.r9

/-- The working copy of the registers that `remote_call` passes to the first
`PTRACE_SETREGS`, from `temp_registers` after the argument loop (lines 297,
303-305). -/
def work_registers (marshalled : Regs) (remote_symbol_address : Nat) : Regs :=
  { marshalled with
    rsp := sub64 marshalled.rsp 8, rip := remote_symbol_address, rax := 1, orig_rax := 0 }

/-- The failures that can only happen once the working registers are in the
target and before the restoring `PTRACE_SETREGS` is reached. -/
def Failure.afterInstall : Failure → Bool
  | Failure.cont => true
  | Failure.waitpid => true
  | Failure.exited => true
  | Failure.terminated => true
  | Failure.cont_again => true
  | Failure.getregs_return => true
  | _ => false

/-! ## Step 4 of the protocol in the words of the specification -/

/-- "Decrement `work.rsp` until `(work.rsp - offset) mod 16 == 0`"; the
specification writes this with `offset = 8`.  `fuel` bounds the number of
decrements. -/
def specAlignLoop (offset : Nat) : Nat → Nat → Option Nat
  | fuel, rsp =>
    if sub64 rsp offset % 16 = 0 then some rsp
    else
      match fuel with
      | 0 => none
      | f + 1 => specAlignLoop offset f (sub64 rsp 1)

/-- "... then subtract 8 more to reserve the slot for the sentinel return
address": the stack pointer step 4 arrives at. -/
def specInstalledRsp (offset : Nat) (rsp : Nat) : Option Nat :=
  (specAlignLoop offset U64 rsp).map (fun aligned => sub64 aligned 8)

/-! ## A concrete session, used to exercise the theorems -/

/-- Registers of a stopped target: all zero but `rsp`, `rip` and `rax`. -/
def exampleRegs : Regs :=
  ⟨0, 0, 0, 0, 0, 0, 0, 0, 0, 0, 59, 0, 0, 0, 0, 0, 4198400, 0, 0, 2147291136, 0, 0, 0, 0, 0, 0, 0⟩

/-- Maps file of the caller. -/
def exampleLocalMaps : List Char :=
  ("00400000-00401000 r-xp 00000000 08:01 123 /bin/injector\n" ++
   "7f0000000000-7f0000100000 r-xp 00000000 08:01 99 /lib/libc.so\n").toList

/-- Maps file of the target. -/
def exampleTargetMaps : List Char :=
  ("00400000-00401000 r-xp 00000000 08:01 124 /bin/testbin\n" ++
   "7e0000000000-7e0000100000 r-xp 00000000 08:01 99 /lib/libc.so\n").toList

/-- The caller has pid 10 and the target pid 42. -/
def exampleMaps : MapsPath → Option (List Char)
  | MapsPath.self => some exampleLocalMaps
  | MapsPath.pid p =>
    if p = 10 then some exampleLocalMaps
    else if p = 42 then some exampleTargetMaps else none

/-- The target stops with `SIGSEGV` and 77 in `rax`. -/
def exampleFault : WaitEvent :=
  ⟨42, true, 11, false, false, { exampleRegs with rax := 77, rsp := 2147291136, rip := 0 }, 0⟩

/-- A session in which every step succeeds. -/
def exampleWorld : World :=
  ⟨10, 42, exampleMaps, exampleRegs, 0, 8, 0, 0, [exampleFault], 0, 0⟩

/-- The same session, but the first `PTRACE_CONT` fails. -/
def exampleWorldContFails : World :=
  ⟨10, 42, exampleMaps, exampleRegs, 0, 8, 0, -1, [], 0, 0⟩

/-- A function pointer inside `/lib/libc.so` of the caller. -/
def exampleFunction : Nat := 139637976727808

/-- The working registers of the example session for the arguments 1..6. -/
def exampleWork : Regs :=
  { exampleRegs with
    rdi := 1, rsi := 2, rdx := 3, rcx := 4, r8 := 5, r9 := 6,
    rsp := 2147291128, rip := 138538465100032, rax := 1, orig_rax := 0 }

/-! ## Maps files made of well-formed lines -/

/-- The fields of one line `start-end perms offset dev inode path` of a maps
file, as text.  `pad` is the run of blanks the kernel puts before the path. -/
structure MapsLine where
  start : List Char
  stop : List Char
  perms : List Char
  offset : List Char
  dev : List Char
  inode : List Char
  pad : List Char
  path : List Char

/-- The line without its newline. -/
def MapsLine.body (l : MapsLine) : List Char :=
  l.start ++ '-' :: (l.stop ++ ' ' :: (l.perms ++ ' ' :: (l.offset ++ ' ' ::
    (l.dev ++ ' ' :: (l.inode ++ ' ' :: (l.pad ++ l.path))))))

/-- The line as it stands in the file. -/
def MapsLine.text (l : MapsLine) : List Char := l.body ++ ['\n']

/-- Value of a string of hexadecimal digits. -/
def hexValue (s : List Char) : Nat :=
  s.foldl (fun acc c => acc * 16 + (hexDigit c).getD 0) 0

/-- Start address of the mapping. -/
def MapsLine.startAddress (l : MapsLine) : Nat := hexValue l.start

/-- End address of the mapping. -/
def MapsLine.endAddress (l : MapsLine) : Nat := hexValue l.stop

/-- A line has the form `start-end perms offset dev inode path`: the two
addresses are non-empty hexadecimal numbers of at most 64 bits, the line has
neither a NUL nor a newline before its end, only the path can hold a `/`, and
the line with its newline fits the 512-byte buffer of `fgets`. -/
structure MapsLine.WF (l : MapsLine) : Prop where
  start_ne : l.start ≠ []
  start_hex : ∀ c ∈ l.start, (hexDigit c).isSome = true
  start_lt : hexValue l.start < U64
  stop_ne : l.stop ≠ []
  stop_hex : ∀ c ∈ l.stop, (hexDigit c).isSome = true
  stop_lt : hexValue l.stop < U64
  clean : ∀ c ∈ l.body, c ≠ NUL ∧ c ≠ '\n'
  slash : ∀ c ∈ l.perms ++ l.offset ++ l.dev ++ l.inode ++ l.pad, c ≠ '/'
  fits : l.body.length < 511

/-- The file made of the given lines. -/
def mapsText : List MapsLine → List Char
  | [] => []
  | l :: rest => l.text ++ mapsText rest

/-- The address lies in the range the line gives, both ends included, as
line 208 tests it. -/
def MapsLine.covers (l : MapsLine) (address : Nat) : Prop :=
  l.startAddress ≤ address ∧ address ≤ l.endAddress

instance (l : MapsLine) (address : Nat) : Decidable (l.covers address) :=
  inferInstanceAs (Decidable (l.startAddress ≤ address ∧ address ≤ l.endAddress))

/-- The text `needle` occurs somewhere in `text`. -/
def occursIn (needle text : List Char) : Prop := ∃ a b, text = a ++ needle ++ b

/-- An entry of `/proc` that `get_process_id` accepts for a literal: its name
reads as a positive pid, its `cmdline` opens, and what `fgets` put in the
buffer agrees with the literal up to the first NUL of each. -/
def cmdlineMatches (d : ProcDir) (literal d_name : List Char) : Prop :=
  0 < atoi d_name ∧
    ∃ content, d.cmdline (atoi d_name) = some content ∧
      cstr (cmdlineBuffer content) = cstr literal

/-! ## Concrete inputs for the lookups -/

/-- The `cmdline` of a process started as `testbin --flag`. -/
def exampleCmdline : List Char := "testbin".toList ++ NUL :: ("--flag".toList ++ [NUL])

/-- A `/proc` with the entries `self` and `42`. -/
def exampleProc : ProcDir :=
  ⟨["self".toList, "42".toList], fun pid => if pid = 42 then some exampleCmdline else none⟩

/-- First line of `exampleTargetMaps`: the executable. -/
def exampleBinLine : MapsLine :=
  ⟨"00400000".toList, "00401000".toList, "r-xp".toList, "00000000".toList, "08:01".toList,
    "124".toList, [], "/bin/testbin".toList⟩

/-- Second line of `exampleTargetMaps`: the C library. -/
def exampleLibcLine : MapsLine :=
  ⟨"7e0000000000".toList, "7e0000100000".toList, "r-xp".toList, "00000000".toList,
    "08:01".toList, "99".toList, [], "/lib/libc.so".toList⟩

/-- The two lines of `exampleTargetMaps`. -/
def exampleTargetLines : List MapsLine := [exampleBinLine, exampleLibcLine]

/-- An anonymous mapping from `0x1000` to `0x2000`. -/
def exampleAnonLine : MapsLine :=
  ⟨"1000".toList, "2000".toList, "rw-p".toList, "00000000".toList, "00:00".toList,
    "0".toList, [], []⟩

/-- A library mapped from `0x2000` to `0x3000`. -/
def exampleLibLine : MapsLine :=
  ⟨"2000".toList, "3000".toList, "r-xp".toList, "00000000".toList, "08:01".toList,
    "5".toList, [' ', ' '], "/lib/a.so".toList⟩

/-- An anonymous mapping that ends where a library begins. -/
def exampleAdjacentLines : List MapsLine := [exampleAnonLine, exampleLibLine]

/-- Maps files for the lookups: `/proc/self/maps` and `/proc/10/maps` hold
`exampleAdjacentLines`, `/proc/42/maps` holds `exampleTargetLines`. -/
def exampleLookupMaps : MapsPath → Option (List Char)
  | MapsPath.self => some (mapsText exampleAdjacentLines)
  | MapsPath.pid p =>
    if p = 10 then some (mapsText exampleAdjacentLines)
    else if p = 42 then some (mapsText exampleTargetLines) else none

/-! ## The alignment loop with a counter -/

/-- The loop `while (((rsp - space - 8) & 0xF) != 0) rsp--;` of lines 278-280
once more, now counting the executions of its body: the value of `rsp` when
the loop is left and the number of decrements made, starting the count at
`done`.  `none` means `fuel` executions did not suffice. -/
def alignSteps : Nat → Nat → Nat → Option (Nat × Nat)
  | fuel, rsp, done =>
    if alignCond rsp then
      match fuel with
      | 0 => none
      | f + 1 => alignSteps f (sub64 rsp 1) (done + 1)
    else some (rsp, done)

/-! ## Wait statuses -/

/-- `WTERMSIG(status)` of `<sys/wait.h>` (glibc): `status & 0x7f`. -/
def WTERMSIG (status : Nat) : Nat := status &&& 0x7f

/-- `WIFEXITED(status)`: `WTERMSIG(status) == 0`. -/
def WIFEXITED (status : Nat) : Bool := WTERMSIG status == 0

/-- `WIFSIGNALED(status)`:
`((signed char) ((status & 0x7f) + 1) >> 1) > 0`. -/
def WIFSIGNALED (status : Nat) : Bool :=
  let t : Int := ((status &&& 0x7f) + 1 : Nat)
  let c : Int := if t < 128 then t else t - 256
  decide (c / 2 > 0)

/-- `WIFSTOPPED(status)`: `(status & 0xff) == 0x7f`. -/
def WIFSTOPPED (status : Nat) : Bool := status &&& 0xff == 0x7f

/-- `WSTOPSIG(status)`: `(status & 0xff00) >> 8`. -/
def WSTOPSIG (status : Nat) : Int := (((status &&& 0xff00) >>> 8 : Nat) : Int)

/-- The report of `waitpid` for a raw `status` word. -/
def WaitEvent.ofStatus (wp : Int) (status : Nat) (regs : Regs) (cont : Int) : WaitEvent :=
  ⟨wp, WIFSTOPPED status, WSTOPSIG status, WIFEXITED status, WIFSIGNALED status, regs, cont⟩

/-- The status is a stop with `SIGSEGV` or `SIGILL`: the test of line 326. -/
def WaitEvent.isFault (e : WaitEvent) : Prop :=
  e.wifstopped = true ∧ (e.wstopsig = SIGSEGV ∨ e.wstopsig = SIGILL)

instance (e : WaitEvent) : Decidable e.isFault :=
  inferInstanceAs (Decidable (e.wifstopped = true ∧ (e.wstopsig = SIGSEGV ∨ e.wstopsig = SIGILL)))

/-- The status is a stop with any other signal (and so neither an exit nor a
termination). -/
def WaitEvent.isOtherStop (e : WaitEvent) : Prop :=
  e.wifstopped = true ∧ e.wstopsig ≠ SIGSEGV ∧ e.wstopsig ≠ SIGILL ∧
    e.wifexited = false ∧ e.wifsignaled = false

instance (e : WaitEvent) : Decidable e.isOtherStop :=
  inferInstanceAs (Decidable (e.wifstopped = true ∧ e.wstopsig ≠ SIGSEGV ∧ e.wstopsig ≠ SIGILL ∧
    e.wifexited = false ∧ e.wifsignaled = false))

/-- The status reports that the target exited or was terminated by a signal
(and so is not a stop). -/
def WaitEvent.isGone (e : WaitEvent) : Prop :=
  e.wifstopped = false ∧ (e.wifexited = true ∨ e.wifsignaled = true)

instance (e : WaitEvent) : Decidable e.isGone :=
  inferInstanceAs (Decidable (e.wifstopped = false ∧ (e.wifexited = true ∨ e.wifsignaled = true)))

/-- The system calls of the wait loop for statuses it absorbs: for each, the
`waitpid` that reported it and a `PTRACE_CONT` with signal 0. -/
def resumed : List WaitEvent → List Call
  | [] => []
  | _ :: rest => Call.waitpid :: Call.cont 0 :: resumed rest

/-- The target stops with `SIGCHLD` (17), status word `0x117f`. -/
def exampleOtherStop : WaitEvent :=
  WaitEvent.ofStatus 42 4479 { exampleRegs with rip := 4198500 } 0

/-- The target exits with code 3, status word `0x0300`. -/
def exampleExit : WaitEvent := WaitEvent.ofStatus 42 768 exampleRegs 0

/-- A session in which a `SIGCHLD` stop comes before the fault. -/
def exampleWorldSignal : World :=
  ⟨10, 42, exampleMaps, exampleRegs, 0, 8, 0, 0, [exampleOtherStop, exampleFault], 0, 0⟩

/-- A session in which the target exits after a `SIGCHLD` stop. -/
def exampleWorldExit : World :=
  ⟨10, 42, exampleMaps, exampleRegs, 0, 8, 0, 0, [exampleOtherStop, exampleExit], 0, 0⟩

/-! ## A session with an unaligned stack pointer -/

/-- The registers of `exampleRegs` with `rsp = 0x7ffd2a37`, which is 7 modulo
16. -/
def exampleRegsUnaligned : Regs := { exampleRegs with rsp := 2147297847 }

/-- The session of `exampleWorld` for a target stopped with
`exampleRegsUnaligned`. -/
def exampleWorldUnaligned : World :=
  ⟨10, 42, exampleMaps, exampleRegsUnaligned, 0, 8, 0, 0, [exampleFault], 0, 0⟩

/-- The working registers of that session for the arguments 1..6: `rsp` is
`0x7ffd2a30 - 8 = 0x7ffd2a28`. -/
def exampleWorkUnaligned : Regs := { exampleWork with rsp := 2147297832 }

/-! # Theorems -/

/-! ## Arithmetic of the alignment loop -/

theorem and_0xF (x : Nat) : x &&& 0xF = x % 16 := by
  have h := Nat.and_pow_two_sub_one_eq_mod x 4
  simpa using h

theorem alignCond_eq (rsp : Nat) : alignCond rsp = decide (rsp % 16 ≠ 0) := by
  unfold alignCond
  rw [and_0xF]
  have h : sub64 (sub64 rsp space) 8 % 16 = rsp % 16 := by
    unfold sub64 space U64
    omega
  rw [h]
  by_cases h0 : rsp % 16 = 0 <;> simp [h0]

theorem sub64_one (rsp : Nat) (hlt : rsp < U64) (h0 : rsp % 16 ≠ 0) : sub64 rsp 1 = rsp - 1 := by
  unfold sub64 U64
  unfold U64 at hlt
  omega

/-- With `fuel` iterations allowed, the loop ends exactly when `rsp % 16` of
them suffice, and then leaves `rsp` with its low four bits cleared. -/
theorem alignLoop_eq (fuel : Nat) : ∀ rsp, rsp < U64 →
    alignLoop fuel rsp = if rsp % 16 ≤ fuel then some (rsp - rsp % 16) else none := by
  induction fuel with
  | zero =>
    intro rsp _
    unfold alignLoop
    rw [alignCond_eq]
    by_cases h0 : rsp % 16 = 0 <;> simp [h0]
  | succ f ih =>
    intro rsp hlt
    unfold alignLoop
    rw [alignCond_eq]
    by_cases h0 : rsp % 16 = 0
    · simp [h0]
    · have hlt2 : rsp - 1 < U64 := by omega
      simp only [h0, ne_eq, not_false_eq_true, decide_True, if_true]
      rw [sub64_one rsp hlt h0, ih _ hlt2]
      have hm : (rsp - 1) % 16 = rsp % 16 - 1 := by omega
      rw [hm]
      by_cases hle : rsp % 16 ≤ f + 1
      · have h1 : rsp % 16 - 1 ≤ f := by omega
        have he : rsp - 1 - (rsp % 16 - 1) = rsp - rsp % 16 := by omega
        simp only [h1, hle, if_true, he]
      · have h1 : ¬ rsp % 16 - 1 ≤ f := by omega
        simp only [h1, hle, if_false]

theorem alignLoop_U64 (rsp : Nat) (hlt : rsp < U64) :
    alignLoop U64 rsp = some (rsp - rsp % 16) := by
  rw [alignLoop_eq U64 rsp hlt]
  have h : rsp % 16 ≤ U64 := by unfold U64; omega
  simp only [h, if_true]

/-- The loop of the specification with offset 16 is the loop of the code. -/
theorem specAlignLoop_sixteen (fuel : Nat) : ∀ rsp, specAlignLoop 16 fuel rsp = alignLoop fuel rsp := by
  induction fuel with
  | zero =>
    intro rsp
    unfold specAlignLoop alignLoop
    rw [alignCond_eq]
    have h : sub64 rsp 16 % 16 = rsp % 16 := by unfold sub64 U64; omega
    rw [h]
    by_cases h0 : rsp % 16 = 0 <;> simp [h0]
  | succ f ih =>
    intro rsp
    unfold specAlignLoop alignLoop
    rw [alignCond_eq]
    have h : sub64 rsp 16 % 16 = rsp % 16 := by unfold sub64 U64; omega
    rw [h]
    by_cases h0 : rsp % 16 = 0
    · simp [h0]
    · simp [h0, ih]

/-! ## The argument loop -/

theorem set_argument_frame (i argument : Nat) (r : Regs) :
    (set_argument i argument r).rsp = r.rsp := by
  unfold set_argument
  split <;> rfl

theorem marshalLoop_rsp (count : Int) (k : Nat) :
    ∀ (ap : List Nat) (r m : Regs), marshalLoop count k ap r = some m → m.rsp = r.rsp := by
  induction k with
  | zero =>
    intro ap r m h
    simp only [marshalLoop, Option.some.injEq] at h
    rw [← h]
  | succ k ih =>
    intro ap r m h
    unfold marshalLoop at h
    by_cases hc : ((5 - k : Nat) : Int) < count
    · simp only [hc, if_true] at h
      cases ap with
      | nil => simp at h
      | cons a ap =>
        simp only at h
        rw [ih ap _ m h, set_argument_frame]
    · simp only [hc, if_false, Option.some.injEq] at h
      rw [← h]

/-- The argument loop on a complete argument list stores argument `i` in
argument register `i` for `i < 6`, leaves every other register alone, and
reads nothing past the sixth argument. -/
theorem marshalLoop_spec (args : List Nat) (r : Regs) :
    ∃ m, marshalLoop args.length 6 args r = some m ∧
      (∀ i, i < min args.length 6 → args[i]? = some (argument_register i m)) ∧
      (∀ i, args.length ≤ i → i < 6 → argument_register i m = argument_register i r) ∧
      m = { r with rdi := m.rdi, rsi := m.rsi, rdx := m.rdx, rcx := m.rcx, r8 := m.r8, r9 := m.r9 } ∧
      marshalLoop (args.take 6).length 6 (args.take 6) r = some m := by
  rcases args with _ | ⟨a0, _ | ⟨a1, _ | ⟨a2, _ | ⟨a3, _ | ⟨a4, _ | ⟨a5, rest⟩⟩⟩⟩⟩⟩
  · refine ⟨r, by simp [marshalLoop], ?_, ?_, rfl, by simp [marshalLoop]⟩
    · intro i hi; simp at hi
    · intro i _ _; rfl
  · refine ⟨{ r with rdi := a0 }, by simp [marshalLoop, set_argument], ?_, ?_, rfl,
      by simp [marshalLoop, set_argument]⟩
    · intro i hi
      have hi : i < 1 := by simpa using hi
      interval_cases i
      simp [argument_register]
    · intro i h1 h2
      have h1 : 1 ≤ i := by simpa using h1
      interval_cases i <;> simp [argument_register]
  · refine ⟨{ r with rdi := a0, rsi := a1 }, by simp [marshalLoop, set_argument], ?_, ?_, rfl,
      by simp [marshalLoop, set_argument]⟩
    · intro i hi
      have hi : i < 2 := by simpa using hi
      interval_cases i <;> simp [argument_register]
    · intro i h1 h2
      have h1 : 2 ≤ i := by simpa using h1
      interval_cases i <;> simp [argument_register]
  · refine ⟨{ r with rdi := a0, rsi := a1, rdx := a2 }, by simp [marshalLoop, set_argument],
      ?_, ?_, rfl, by simp [marshalLoop, set_argument]⟩
    · intro i hi
      have hi : i < 3 := by simpa using hi
      interval_cases i <;> simp [argument_register]
    · intro i h1 h2
      have h1 : 3 ≤ i := by simpa using h1
      interval_cases i <;> simp [argument_register]
  · refine ⟨{ r with rdi := a0, rsi := a1, rdx := a2, rcx := a3 },
      by simp [marshalLoop, set_argument], ?_, ?_, rfl, by simp [marshalLoop, set_argument]⟩
    · intro i hi
      have hi : i < 4 := by simpa using hi
      interval_cases i <;> simp [argument_register]
    · intro i h1 h2
      have h1 : 4 ≤ i := by simpa using h1
      interval_cases i <;> simp [argument_register]
  · refine ⟨{ r with rdi := a0, rsi := a1, rdx := a2, rcx := a3, r8 := a4 },
      by simp [marshalLoop, set_argument], ?_, ?_, rfl, by simp [marshalLoop, set_argument]⟩
    · intro i hi
      have hi : i < 5 := by simpa using hi
      interval_cases i <;> simp [argument_register]
    · intro i h1 h2
      have h1 : 5 ≤ i := by simpa using h1
      interval_cases i
      simp [argument_register]
  · refine ⟨{ r with rdi := a0, rsi := a1, rdx := a2, rcx := a3, r8 := a4, r9 := a5 },
      ?_, ?_, ?_, rfl, by simp [marshalLoop, set_argument]⟩
    · generalize hn : (a0 :: a1 :: a2 :: a3 :: a4 :: a5 :: rest).length = n
      have h6 : 6 ≤ n := by
        rw [← hn]
        simp only [List.length_cons]
        omega
      have h0 : (0 : Int) < n := by omega
      have h1 : (1 : Int) < n := by omega
      have h2 : (2 : Int) < n := by omega
      have h3 : (3 : Int) < n := by omega
      have h4 : (4 : Int) < n := by omega
      have h5 : (5 : Int) < n := by omega
      simp [marshalLoop, set_argument, h0, h1, h2, h3, h4, h5]
    · intro i hi
      have hi : i < 6 := by
        simp only [List.length_cons] at hi
        omega
      interval_cases i <;> simp [argument_register]
    · intro i h1 h2
      simp only [List.length_cons] at h1
      omega

/-! ## The steps of `remote_call` -/

theorem getLast_append_some {α : Type} (p q : List α) (y : α) (h : q.getLast? = some y) :
    (p ++ q).getLast? = some y := by
  rw [List.getLast?_append, h]
  rfl

@[simp] theorem after_outcome (c : List Call) (r : Result) : (r.after c).outcome = r.outcome := rfl

@[simp] theorem after_target (c : List Call) (r : Result) : (r.after c).target = r.target := rfl

@[simp] theorem after_trace (c : List Call) (r : Result) : (r.after c).trace = c ++ r.trace := rfl

theorem restore_value (w : World) (o t : Regs) (v : Nat)
    (h : (remote_call_restore w o t).outcome = Outcome.value v) :
    (remote_call_restore w o t).target = o ∧
    (remote_call_restore w o t).trace.getLast? = some (Call.setregs o) := by
  unfold remote_call_restore at h ⊢
  by_cases h1 : w.getregs_return = -1
  · simp [h1] at h
  · by_cases h2 : w.setregs_restore = -1
    · simp [h1, h2] at h
    · simp [h1, h2]

theorem wait_value (w : World) (o t : Regs) (v : Nat)
    (h : (remote_call_wait w o t).outcome = Outcome.value v) :
    (remote_call_wait w o t).target = o ∧
    (remote_call_wait w o t).trace.getLast? = some (Call.setregs o) := by
  unfold remote_call_wait at h ⊢
  by_cases h1 : w.cont = -1
  · simp [h1] at h
  · simp only [h1, if_false] at h ⊢
    rcases hw : wait_loop w.g_pid w.waits t with ⟨x, tg, calls⟩
    rw [hw] at h
    cases x with
    | blocked => simp at h
    | failed s => simp at h
    | faulted =>
      simp only [after_outcome] at h
      have hr := restore_value w o tg v h
      exact ⟨hr.1, getLast_append_some _ _ _ hr.2⟩

theorem install_value (w : World) (o m : Regs) (a v : Nat)
    (h : (remote_call_install w o m a).outcome = Outcome.value v) :
    (remote_call_install w o m a).target = o ∧
    (remote_call_install w o m a).trace.getLast? = some (Call.setregs o) := by
  unfold remote_call_install at h ⊢
  by_cases h1 : write_memory w.process_vm_writev 8 = 0
  · by_cases h2 : w.setregs = -1
    · simp [h1, h2] at h
    · simp only [h1, h2, ne_eq, not_true_eq_false, if_false, after_outcome] at h
      have hr := wait_value w o _ v h
      simp only [h1, h2, ne_eq, not_true_eq_false, if_false, after_target, after_trace]
      exact ⟨hr.1, getLast_append_some _ _ _ hr.2⟩
  · simp [h1] at h

theorem prepare_value (w : World) (a : Nat) (count : Int) (args : List Nat) (v : Nat)
    (h : (remote_call_prepare w a count args).outcome = Outcome.value v) :
    (remote_call_prepare w a count args).target = w.target ∧
    (remote_call_prepare w a count args).trace.getLast? = some (Call.setregs w.target) := by
  unfold remote_call_prepare at h ⊢
  by_cases h1 : w.getregs = -1
  · simp [h1] at h
  · simp only [h1, if_false] at h ⊢
    rcases ha : alignLoop U64 w.target.rsp with _ | rsp
    · rw [ha] at h; simp at h
    · rw [ha] at h
      simp only at h ⊢
      rcases hm : marshalLoop count 6 args { w.target with rsp := rsp } with _ | m
      · rw [hm] at h; simp at h
      · rw [hm] at h
        simp only [after_outcome] at h
        have hr := install_value w w.target m a v h
        exact ⟨hr.1, getLast_append_some _ _ _ hr.2⟩

/-! ### The registers given to `PTRACE_SETREGS` -/

theorem installed_install (w : World) (o m : Regs) (a : Nat) :
    installed (remote_call_install w o m a).trace =
      if write_memory w.process_vm_writev 8 = 0 then some (work_registers m a) else none := by
  unfold remote_call_install
  by_cases h1 : write_memory w.process_vm_writev 8 = 0
  · by_cases h2 : w.setregs = -1
    · simp [h1, h2, installed, work_registers]
    · simp [h1, h2, installed, work_registers]
  · simp [h1, installed]

theorem installed_prepare (w : World) (a : Nat) (count : Int) (args : List Nat) :
    installed (remote_call_prepare w a count args).trace =
      if w.getregs = -1 then none
      else
        match alignLoop U64 w.target.rsp with
        | none => none
        | some rsp =>
          match marshalLoop count 6 args { w.target with rsp := rsp } with
          | none => none
          | some m =>
            if write_memory w.process_vm_writev 8 = 0 then some (work_registers m a) else none := by
  unfold remote_call_prepare
  by_cases h1 : w.getregs = -1
  · simp [h1, installed]
  · simp only [h1, if_false]
    rcases ha : alignLoop U64 w.target.rsp with _ | rsp
    · simp [installed]
    · simp only
      rcases hm : marshalLoop count 6 args { w.target with rsp := rsp } with _ | m
      · simp [installed]
      · simp only [after_trace, List.singleton_append, installed]
        exact installed_install w w.target m a

theorem installed_remote_call (w : World) (fp : Nat) (count : Int) (args : List Nat) :
    installed (remote_call w fp count args).trace =
      match get_local_module_name w.maps w.getpid fp with
      | ModuleName.found name =>
        if get_remote_function_address w.maps w.g_pid name fp = 1 then none
        else installed
          (remote_call_prepare w (get_remote_function_address w.maps w.g_pid name fp)
            count args).trace
      | _ => none := by
  unfold remote_call
  rcases hm : get_local_module_name w.maps w.getpid fp with name | _ | _
  · simp only
    by_cases h1 : get_remote_function_address w.maps w.g_pid name fp = 1
    · simp [h1, installed]
    · simp [h1]
  · simp [installed]
  · simp [installed]

/-- Whenever `remote_call` reaches its first `PTRACE_SETREGS`, the registers
it passes are the snapshot after the alignment loop, the argument loop, and
lines 297-305. -/
theorem installed_cases (w : World) (fp : Nat) (count : Int) (args : List Nat) (work : Regs)
    (h : installed (remote_call w fp count args).trace = some work) :
    ∃ name rsp m,
      get_local_module_name w.maps w.getpid fp = ModuleName.found name ∧
      alignLoop U64 w.target.rsp = some rsp ∧
      marshalLoop count 6 args { w.target with rsp := rsp } = some m ∧
      work = work_registers m (get_remote_function_address w.maps w.g_pid name fp) := by
  rw [installed_remote_call] at h
  rcases hm : get_local_module_name w.maps w.getpid fp with name | _ | _
  · rw [hm] at h
    simp only at h
    by_cases h1 : get_remote_function_address w.maps w.g_pid name fp = 1
    · simp [h1] at h
    · simp only [h1, if_false] at h
      rw [installed_prepare] at h
      by_cases h2 : w.getregs = -1
      · simp [h2] at h
      · simp only [h2, if_false] at h
        rcases ha : alignLoop U64 w.target.rsp with _ | rsp
        · rw [ha] at h; simp at h
        · rw [ha] at h
          simp only at h
          rcases hmm : marshalLoop count 6 args { w.target with rsp := rsp } with _ | m
          · rw [hmm] at h; simp at h
          · rw [hmm] at h
            simp only at h
            by_cases h3 : write_memory w.process_vm_writev 8 = 0
            · simp only [h3, if_true, Option.some.injEq] at h
              exact ⟨name, rsp, m, rfl, rfl, hmm, h.symm⟩
            · simp [h3] at h
  · rw [hm] at h; simp at h
  · rw [hm] at h; simp at h

/-- The stack pointer of the working registers, for a 64-bit snapshot. -/
theorem installed_rsp (w : World) (fp : Nat) (count : Int) (args : List Nat) (work : Regs)
    (hrsp : w.target.rsp < U64)
    (h : installed (remote_call w fp count args).trace = some work) :
    work.rsp = sub64 (w.target.rsp - w.target.rsp % 16) 8 := by
  obtain ⟨name, rsp, m, _, ha, hm, hw⟩ := installed_cases w fp count args work h
  rw [alignLoop_U64 _ hrsp, Option.some.injEq] at ha
  have hmr := marshalLoop_rsp count 6 args _ m hm
  rw [hw]
  simp only [work_registers]
  rw [hmr, ← ha]

/-! ### `PTRACE_SETREGS` on the failure paths -/

theorem setregsCalls_append (a b : List Call) :
    setregsCalls (a ++ b) = setregsCalls a ++ setregsCalls b := by
  induction a with
  | nil => rfl
  | cons c a ih =>
    cases c <;> simp [setregsCalls, ih]

theorem mem_setregsCalls (r : Regs) (t : List Call) (h : Call.setregs r ∈ t) :
    r ∈ setregsCalls t := by
  induction t with
  | nil => simp at h
  | cons c t ih =>
    rcases List.mem_cons.mp h with h1 | h1
    · rw [← h1]
      simp [setregsCalls]
    · have h2 := ih h1
      cases c <;> simp [setregsCalls, h2]

/-- The wait loop never writes the registers of the target. -/
theorem wait_loop_setregs (g_pid : Int) (waits : List WaitEvent) :
    ∀ target, setregsCalls (wait_loop g_pid waits target).2.2 = [] := by
  induction waits with
  | nil => intro target; rfl
  | cons e es ih =>
    intro target
    unfold wait_loop
    by_cases h1 : e.wp ≠ g_pid
    · simp [h1, setregsCalls]
    · by_cases h2 : (e.wifstopped && (e.wstopsig == SIGSEGV || e.wstopsig == SIGILL)) = true
      · simp [h1, h2, setregsCalls]
      · by_cases h3 : e.wifexited = true
        · simp [h1, h2, h3, setregsCalls]
        · by_cases h4 : e.wifsignaled = true
          · simp [h1, h2, h3, h4, setregsCalls]
          · by_cases h5 : e.cont = -1
            · simp [h1, h2, h3, h4, h5, setregsCalls]
            · simp only [h1, h2, h3, h4, h5, if_false]
              simp only [setregsCalls]
              exact ih e.regs

theorem restore_failure (w : World) (o t : Regs) (site : Failure)
    (h : (remote_call_restore w o t).outcome = Outcome.error site)
    (hs : site.afterInstall = true) :
    setregsCalls (remote_call_restore w o t).trace = [] := by
  unfold remote_call_restore at h ⊢
  by_cases h1 : w.getregs_return = -1
  · simp [h1, setregsCalls]
  · by_cases h2 : w.setregs_restore = -1
    · simp only [h1, h2, if_false, if_true, Outcome.error.injEq] at h
      rw [← h] at hs
      simp [Failure.afterInstall] at hs
    · simp [h1, h2] at h

theorem wait_failure (w : World) (o t : Regs) (site : Failure)
    (h : (remote_call_wait w o t).outcome = Outcome.error site)
    (hs : site.afterInstall = true) :
    setregsCalls (remote_call_wait w o t).trace = [] := by
  unfold remote_call_wait at h ⊢
  by_cases h1 : w.cont = -1
  · simp [h1, setregsCalls]
  · simp only [h1, if_false] at h ⊢
    have hl := wait_loop_setregs w.g_pid w.waits t
    rcases hw : wait_loop w.g_pid w.waits t with ⟨x, tg, calls⟩
    rw [hw] at h hl
    simp only at hl
    cases x with
    | blocked => simp at h
    | failed s => simp [setregsCalls, hl]
    | faulted =>
      simp only [after_outcome] at h
      rw [after_trace, setregsCalls_append, restore_failure w o tg site h hs, List.append_nil]
      simp only [setregsCalls, hl]

theorem install_failure (w : World) (o m : Regs) (a : Nat) (site : Failure)
    (h : (remote_call_install w o m a).outcome = Outcome.error site)
    (hs : site.afterInstall = true) :
    setregsCalls (remote_call_install w o m a).trace = [work_registers m a] := by
  unfold remote_call_install at h ⊢
  by_cases h1 : write_memory w.process_vm_writev 8 = 0
  · by_cases h2 : w.setregs = -1
    · simp only [h1, h2, ne_eq, not_true_eq_false, if_false, if_true, Outcome.error.injEq] at h
      rw [← h] at hs
      simp [Failure.afterInstall] at hs
    · simp only [h1, h2, ne_eq, not_true_eq_false, if_false, after_outcome] at h
      simp only [h1, h2, ne_eq, not_true_eq_false, if_false]
      rw [after_trace, setregsCalls_append, wait_failure w o _ site h hs, List.append_nil]
      simp only [setregsCalls, work_registers]
  · simp only [h1, ne_eq, not_false_eq_true, if_true, Outcome.error.injEq] at h
    rw [← h] at hs
    simp [Failure.afterInstall] at hs

theorem installed_eq_head (t : List Call) : installed t = (setregsCalls t).head? := by
  induction t with
  | nil => rfl
  | cons c t ih =>
    cases c <;> simp [installed, setregsCalls, ih]

theorem prepare_failure (w : World) (a : Nat) (count : Int) (args : List Nat) (site : Failure)
    (h : (remote_call_prepare w a count args).outcome = Outcome.error site)
    (hs : site.afterInstall = true) :
    ∃ work, setregsCalls (remote_call_prepare w a count args).trace = [work] := by
  unfold remote_call_prepare at h ⊢
  by_cases h1 : w.getregs = -1
  · simp only [h1, if_true, Outcome.error.injEq] at h
    rw [← h] at hs
    simp [Failure.afterInstall] at hs
  · simp only [h1, if_false] at h ⊢
    rcases ha : alignLoop U64 w.target.rsp with _ | rsp
    · rw [ha] at h; simp at h
    · rw [ha] at h
      simp only at h ⊢
      rcases hm : marshalLoop count 6 args { w.target with rsp := rsp } with _ | m
      · rw [hm] at h; simp at h
      · rw [hm] at h
        simp only [after_outcome] at h
        have hf := install_failure w w.target m a site h hs
        refine ⟨work_registers m a, ?_⟩
        rw [after_trace, setregsCalls_append, hf]
        simp only [setregsCalls, List.nil_append]

/-- A failure after the installation leaves exactly one `PTRACE_SETREGS` in
the trace. -/
theorem remote_call_failure (w : World) (fp : Nat) (count : Int) (args : List Nat) (site : Failure)
    (h : (remote_call w fp count args).outcome = Outcome.error site)
    (hs : site.afterInstall = true) :
    ∃ work, setregsCalls (remote_call w fp count args).trace = [work] := by
  unfold remote_call at h ⊢
  rcases hm : get_local_module_name w.maps w.getpid fp with name | _ | _
  · rw [hm] at h
    simp only at h ⊢
    by_cases h1 : get_remote_function_address w.maps w.g_pid name fp = 1
    · simp only [h1, if_true, Outcome.error.injEq] at h
      rw [← h] at hs
      simp [Failure.afterInstall] at hs
    · simp only [h1, if_false] at h ⊢
      exact prepare_failure w _ count args site h hs
  · rw [hm] at h
    simp only [Outcome.error.injEq] at h
    rw [← h] at hs
    simp [Failure.afterInstall] at hs
  · rw [hm] at h; simp at h

theorem work_rsp_ne (rsp : Nat) (hrsp : rsp < U64) : sub64 (rsp - rsp % 16) 8 ≠ rsp := by
  unfold sub64 U64
  unfold U64 at hrsp
  omega

theorem install_write (w : World) (o m : Regs) (a : Nat) :
    Call.write (work_registers m a).rsp 0 8 ∈ (remote_call_install w o m a).trace := by
  unfold remote_call_install
  by_cases h1 : write_memory w.process_vm_writev 8 = 0
  · by_cases h2 : w.setregs = -1
    · simp [h1, h2, work_registers]
    · simp [h1, h2, work_registers]
  · simp [h1, work_registers]

theorem prepare_write (w : World) (a : Nat) (count : Int) (args : List Nat) (work : Regs)
    (h : installed (remote_call_prepare w a count args).trace = some work) :
    Call.write work.rsp 0 8 ∈ (remote_call_prepare w a count args).trace := by
  rw [installed_prepare] at h
  unfold remote_call_prepare
  by_cases h1 : w.getregs = -1
  · simp [h1] at h
  · simp only [h1, if_false] at h ⊢
    rcases ha : alignLoop U64 w.target.rsp with _ | rsp
    · rw [ha] at h; simp at h
    · rw [ha] at h
      simp only at h ⊢
      rcases hm : marshalLoop count 6 args { w.target with rsp := rsp } with _ | m
      · rw [hm] at h; simp at h
      · rw [hm] at h
        simp only at h
        by_cases h3 : write_memory w.process_vm_writev 8 = 0
        · simp only [h3, if_true, Option.some.injEq] at h
          rw [← h, after_trace]
          exact List.mem_append_right _ (install_write w w.target m a)
        · simp [h3] at h

/-- The return address is written at the stack pointer of the working
registers. -/
theorem remote_call_write (w : World) (fp : Nat) (count : Int) (args : List Nat) (work : Regs)
    (h : installed (remote_call w fp count args).trace = some work) :
    Call.write work.rsp 0 8 ∈ (remote_call w fp count args).trace := by
  rw [installed_remote_call] at h
  unfold remote_call
  rcases hm : get_local_module_name w.maps w.getpid fp with name | _ | _
  · rw [hm] at h
    simp only at h ⊢
    by_cases h1 : get_remote_function_address w.maps w.g_pid name fp = 1
    · simp [h1] at h
    · simp only [h1, if_false] at h ⊢
      exact prepare_write w _ count args work h
  · rw [hm] at h; simp at h
  · rw [hm] at h; simp at h

/-! ## Register preservation and restoring -/

/-- C1. Register-file preservation: in every execution of `remote_call` that
ends in `return return_registers.rax`, the register file of the target when
the call returns equals the register file the first `PTRACE_GETREGS` read (the
one the target had on entry), in every field, `rsp`, `rip`, `rax` and
`orig_rax` included; the last system call of the execution is the
`PTRACE_SETREGS` that writes this snapshot back. -/
theorem remote_call_preserves_registers (w : World) (function_pointer : Nat) (count : Int)
    (args : List Nat) (rax : Nat)
    (h : (remote_call w function_pointer count args).outcome = Outcome.value rax) :
    (remote_call w function_pointer count args).target = w.target ∧
    (remote_call w function_pointer count args).target.rsp = w.target.rsp ∧
    (remote_call w function_pointer count args).target.rip = w.target.rip ∧
    (remote_call w function_pointer count args).target.rax = w.target.rax ∧
    (remote_call w function_pointer count args).target.orig_rax = w.target.orig_rax ∧
    (remote_call w function_pointer count args).trace.getLast? = some (Call.setregs w.target) := by
  have key : (remote_call w function_pointer count args).target = w.target ∧
      (remote_call w function_pointer count args).trace.getLast? =
        some (Call.setregs w.target) := by
    unfold remote_call at h ⊢
    rcases hm : get_local_module_name w.maps w.getpid function_pointer with name | _ | _
    · rw [hm] at h
      simp only at h ⊢
      by_cases h1 : get_remote_function_address w.maps w.g_pid name function_pointer = 1
      · simp [h1] at h
      · simp only [h1, if_false] at h ⊢
        exact prepare_value w _ count args rax h
    · rw [hm] at h; simp at h
    · rw [hm] at h; simp at h
  refine ⟨key.1, ?_, ?_, ?_, ?_, key.2⟩ <;> rw [key.1]

/-- Witness of C1: the example session returns the harvested 77 and leaves the
entry registers in the target. -/
theorem remote_call_preserves_registers_witness :
    (remote_call exampleWorld exampleFunction 6 [1, 2, 3, 4, 5, 6]).outcome = Outcome.value 77 ∧
    ((remote_call exampleWorld exampleFunction 6 [1, 2, 3, 4, 5, 6]).target = exampleWorld.target ∧
    (remote_call exampleWorld exampleFunction 6 [1, 2, 3, 4, 5, 6]).target.rsp
      = exampleWorld.target.rsp ∧
    (remote_call exampleWorld exampleFunction 6 [1, 2, 3, 4, 5, 6]).target.rip
      = exampleWorld.target.rip ∧
    (remote_call exampleWorld exampleFunction 6 [1, 2, 3, 4, 5, 6]).target.rax
      = exampleWorld.target.rax ∧
    (remote_call exampleWorld exampleFunction 6 [1, 2, 3, 4, 5, 6]).target.orig_rax
      = exampleWorld.target.orig_rax ∧
    (remote_call exampleWorld exampleFunction 6 [1, 2, 3, 4, 5, 6]).trace.getLast?
      = some (Call.setregs exampleWorld.target)) :=
  ⟨by decide,
    remote_call_preserves_registers exampleWorld exampleFunction 6 [1, 2, 3, 4, 5, 6] 77
      (by decide)⟩

/-- Counterexample to C2: when the first `PTRACE_CONT` fails, `remote_call`
returns 1 with the working registers still in the target, and no
`PTRACE_SETREGS` with the original snapshot is in its trace. -/
theorem remote_call_cont_failure_not_restored :
    (remote_call exampleWorldContFails exampleFunction 6 [1, 2, 3, 4, 5, 6]).outcome
      = Outcome.error Failure.cont ∧
    (remote_call exampleWorldContFails exampleFunction 6 [1, 2, 3, 4, 5, 6]).outcome.returned
      = some 1 ∧
    installed (remote_call exampleWorldContFails exampleFunction 6 [1, 2, 3, 4, 5, 6]).trace
      = some exampleWork ∧
    (remote_call exampleWorldContFails exampleFunction 6 [1, 2, 3, 4, 5, 6]).target = exampleWork ∧
    (remote_call exampleWorldContFails exampleFunction 6 [1, 2, 3, 4, 5, 6]).target
      ≠ exampleWorldContFails.target ∧
    Call.setregs exampleWorldContFails.target ∉
      (remote_call exampleWorldContFails exampleFunction 6 [1, 2, 3, 4, 5, 6]).trace := by
  decide

/-- C2, amended. When `remote_call` fails after the working registers were
installed (the first or a later `PTRACE_CONT` fails, `waitpid` fails, the
target exited or was killed, or the second `PTRACE_GETREGS` fails), it returns
1 without a restore: the only `PTRACE_SETREGS` of the execution is the one
that installed the working copy, and none is issued with the original
snapshot. -/
theorem remote_call_failure_not_restored (w : World) (function_pointer : Nat) (count : Int)
    (args : List Nat) (site : Failure)
    (hrsp : w.target.rsp < U64)
    (h : (remote_call w function_pointer count args).outcome = Outcome.error site)
    (hs : site.afterInstall = true) :
    (remote_call w function_pointer count args).outcome.returned = some 1 ∧
    (∃ work, installed (remote_call w function_pointer count args).trace = some work ∧
      setregsCalls (remote_call w function_pointer count args).trace = [work]) ∧
    Call.setregs w.target ∉ (remote_call w function_pointer count args).trace := by
  obtain ⟨work, hw⟩ := remote_call_failure w function_pointer count args site h hs
  have hi : installed (remote_call w function_pointer count args).trace = some work := by
    rw [installed_eq_head, hw]
    rfl
  refine ⟨by rw [h]; rfl, ⟨work, hi, hw⟩, ?_⟩
  intro hmem
  have h1 := mem_setregsCalls _ _ hmem
  rw [hw, List.mem_singleton] at h1
  have h2 := installed_rsp w function_pointer count args work hrsp hi
  rw [← h1] at h2
  exact work_rsp_ne _ hrsp h2.symm

/-- Witness of C2 (amended): the session whose first `PTRACE_CONT` fails. -/
theorem remote_call_failure_not_restored_witness :
    exampleWorldContFails.target.rsp < U64 ∧
    (remote_call exampleWorldContFails exampleFunction 6 [1, 2, 3, 4, 5, 6]).outcome
      = Outcome.error Failure.cont ∧
    Failure.cont.afterInstall = true ∧
    ((remote_call exampleWorldContFails exampleFunction 6 [1, 2, 3, 4, 5, 6]).outcome.returned
      = some 1 ∧
    (∃ work,
      installed (remote_call exampleWorldContFails exampleFunction 6 [1, 2, 3, 4, 5, 6]).trace
        = some work ∧
      setregsCalls (remote_call exampleWorldContFails exampleFunction 6 [1, 2, 3, 4, 5, 6]).trace
        = [work]) ∧
    Call.setregs exampleWorldContFails.target ∉
      (remote_call exampleWorldContFails exampleFunction 6 [1, 2, 3, 4, 5, 6]).trace) :=
  ⟨by decide, by decide, by decide,
    remote_call_failure_not_restored exampleWorldContFails exampleFunction 6 [1, 2, 3, 4, 5, 6]
      Failure.cont (by decide) (by decide) (by decide)⟩

/-! ## The working registers -/

/-- When the lookup, `PTRACE_GETREGS` and the write of the return address
succeed, `remote_call` reaches its first `PTRACE_SETREGS`. -/
theorem remote_call_installs (w : World) (fp : Nat) (name : List Char) (args : List Nat)
    (hrsp : w.target.rsp < U64)
    (hm : get_local_module_name w.maps w.getpid fp = ModuleName.found name)
    (ha : get_remote_function_address w.maps w.g_pid name fp ≠ 1)
    (hg : w.getregs ≠ -1)
    (hw : write_memory w.process_vm_writev 8 = 0) :
    ∃ work, installed (remote_call w fp args.length args).trace = some work := by
  obtain ⟨m, hmar, _⟩ := marshalLoop_spec args { w.target with rsp := w.target.rsp - w.target.rsp % 16 }
  refine ⟨work_registers m (get_remote_function_address w.maps w.g_pid name fp), ?_⟩
  rw [installed_remote_call, hm]
  simp only [ha, if_false]
  rw [installed_prepare, if_neg hg, alignLoop_U64 _ hrsp]
  simp only
  rw [hmar]
  simp only [hw, if_true]

/-- C4. Stack alignment: for every 64-bit snapshot `rsp` the alignment loop
ends, and the value it leaves, `rsp - rsp mod 16`, is a multiple of 16; the
8 bytes of the return-address slot are then subtracted, so the `rsp` that
`remote_call` installs satisfies `(rsp + 8) mod 16 = 0` in arithmetic modulo
`2 ^ 64`; and `remote_call` does install such registers whenever the lookup,
`PTRACE_GETREGS` and the write of the return address succeed. -/
theorem remote_call_stack_alignment (w : World) (function_pointer : Nat)
    (hrsp : w.target.rsp < U64) :
    ∃ aligned,
      alignLoop U64 w.target.rsp = some aligned ∧
      aligned % 16 = 0 ∧
      aligned = w.target.rsp - w.target.rsp % 16 ∧
      add64 (sub64 aligned 8) 8 % 16 = 0 ∧
      (∀ (count : Int) (args : List Nat) (work : Regs),
        installed (remote_call w function_pointer count args).trace = some work →
        work.rsp = sub64 aligned 8 ∧ add64 work.rsp 8 % 16 = 0) ∧
      (∀ (name : List Char) (args : List Nat),
        get_local_module_name w.maps w.getpid function_pointer = ModuleName.found name →
        get_remote_function_address w.maps w.g_pid name function_pointer ≠ 1 →
        w.getregs ≠ -1 → write_memory w.process_vm_writev 8 = 0 →
        ∃ work,
          installed (remote_call w function_pointer args.length args).trace = some work ∧
          work.rsp = sub64 aligned 8 ∧ add64 work.rsp 8 % 16 = 0) := by
  have hmod : add64 (sub64 (w.target.rsp - w.target.rsp % 16) 8) 8 % 16 = 0 := by
    unfold add64 sub64 U64
    unfold U64 at hrsp
    omega
  have hinst : ∀ (count : Int) (args : List Nat) (work : Regs),
      installed (remote_call w function_pointer count args).trace = some work →
      work.rsp = sub64 (w.target.rsp - w.target.rsp % 16) 8 ∧ add64 work.rsp 8 % 16 = 0 := by
    intro count args work h
    have hr := installed_rsp w function_pointer count args work hrsp h
    exact ⟨hr, by rw [hr]; exact hmod⟩
  refine ⟨w.target.rsp - w.target.rsp % 16, alignLoop_U64 _ hrsp, by omega, rfl, hmod, hinst, ?_⟩
  intro name args hm ha hg hw
  obtain ⟨work, hwork⟩ := remote_call_installs w function_pointer name args hrsp hm ha hg hw
  exact ⟨work, hwork, hinst _ args work hwork⟩

/-- Witness of C4: the snapshot `0x7ffd2a37` is 7 modulo 16; the loop lowers
it to `0x7ffd2a30` and `0x7ffd2a28` is installed. -/
theorem remote_call_stack_alignment_witness :
    exampleWorldUnaligned.target.rsp < U64 ∧
    exampleWorldUnaligned.target.rsp = 2147297847 ∧
    exampleWorldUnaligned.target.rsp % 16 = 7 ∧
    alignLoop U64 exampleWorldUnaligned.target.rsp = some 2147297840 ∧
    installed (remote_call exampleWorldUnaligned exampleFunction 6 [1, 2, 3, 4, 5, 6]).trace
      = some exampleWorkUnaligned ∧
    exampleWorkUnaligned.rsp = 2147297832 ∧
    (∃ aligned, alignLoop U64 exampleWorldUnaligned.target.rsp = some aligned ∧
      aligned % 16 = 0 ∧ exampleWorkUnaligned.rsp = sub64 aligned 8 ∧
      add64 exampleWorkUnaligned.rsp 8 % 16 = 0) := by
  refine ⟨by decide, by decide, by decide, by decide, by decide, by decide, ?_⟩
  obtain ⟨aligned, h1, h2, _, _, h5, _⟩ :=
    remote_call_stack_alignment exampleWorldUnaligned exampleFunction (by decide)
  have h := h5 6 [1, 2, 3, 4, 5, 6] exampleWorkUnaligned (by decide)
  exact ⟨aligned, h1, h2, h.1, h.2⟩

/-- Counterexample to C10: for the snapshot `rsp = 0x7ffd1000` the procedure
of step 4 as worded ("until `(rsp - 8) mod 16 == 0`, then subtract 8 more")
arrives at `0x7ffd0ff0`, while `remote_call` installs `0x7ffd0ff8`. -/
theorem remote_call_rsp_not_step_four :
    exampleWorld.target.rsp = 2147291136 ∧
    installed (remote_call exampleWorld exampleFunction 6 [1, 2, 3, 4, 5, 6]).trace
      = some exampleWork ∧
    exampleWork.rsp = 2147291128 ∧
    specInstalledRsp 8 exampleWorld.target.rsp = some 2147291120 ∧
    specInstalledRsp 8 exampleWorld.target.rsp ≠ some exampleWork.rsp := by
  decide

/-- C10, amended. For every 64-bit snapshot `rsp`, the alignment loop of the
code leaves `rsp - rsp mod 16`, and the `rsp` that `remote_call` installs (and
at which it writes the return address) is the value obtained by decrementing
the snapshot until `(rsp - 16) mod 16 = 0`, that is until `rsp` itself is a
multiple of 16, and then subtracting 8; `remote_call` does install it
whenever the lookup, `PTRACE_GETREGS` and the write of the return address
succeed. -/
theorem remote_call_installed_rsp (w : World) (function_pointer : Nat)
    (hrsp : w.target.rsp < U64) :
    alignLoop U64 w.target.rsp = some (w.target.rsp - w.target.rsp % 16) ∧
    specInstalledRsp 16 w.target.rsp = some (sub64 (w.target.rsp - w.target.rsp % 16) 8) ∧
    (∀ (count : Int) (args : List Nat) (work : Regs),
      installed (remote_call w function_pointer count args).trace = some work →
      work.rsp = sub64 (w.target.rsp - w.target.rsp % 16) 8 ∧
      specInstalledRsp 16 w.target.rsp = some work.rsp ∧
      Call.write work.rsp 0 8 ∈ (remote_call w function_pointer count args).trace) ∧
    (∀ (name : List Char) (args : List Nat),
      get_local_module_name w.maps w.getpid function_pointer = ModuleName.found name →
      get_remote_function_address w.maps w.g_pid name function_pointer ≠ 1 →
      w.getregs ≠ -1 → write_memory w.process_vm_writev 8 = 0 →
      ∃ work,
        installed (remote_call w function_pointer args.length args).trace = some work ∧
        specInstalledRsp 16 w.target.rsp = some work.rsp ∧
        Call.write work.rsp 0 8 ∈ (remote_call w function_pointer args.length args).trace) := by
  have hspec : specInstalledRsp 16 w.target.rsp
      = some (sub64 (w.target.rsp - w.target.rsp % 16) 8) := by
    unfold specInstalledRsp
    rw [specAlignLoop_sixteen, alignLoop_U64 _ hrsp]
    rfl
  have hinst : ∀ (count : Int) (args : List Nat) (work : Regs),
      installed (remote_call w function_pointer count args).trace = some work →
      work.rsp = sub64 (w.target.rsp - w.target.rsp % 16) 8 ∧
      specInstalledRsp 16 w.target.rsp = some work.rsp ∧
      Call.write work.rsp 0 8 ∈ (remote_call w function_pointer count args).trace := by
    intro count args work h
    have hr := installed_rsp w function_pointer count args work hrsp h
    exact ⟨hr, by rw [hspec, hr], remote_call_write w function_pointer count args work h⟩
  refine ⟨alignLoop_U64 _ hrsp, hspec, hinst, ?_⟩
  intro name args hm ha hg hw
  obtain ⟨work, hwork⟩ := remote_call_installs w function_pointer name args hrsp hm ha hg hw
  exact ⟨work, hwork, (hinst _ args work hwork).2⟩

/-- Witness of C10 (amended): the snapshot `0x7ffd2a37` is lowered by 7 to
`0x7ffd2a30`, and `0x7ffd2a28` is installed and the return address written
there. -/
theorem remote_call_installed_rsp_witness :
    exampleWorldUnaligned.target.rsp < U64 ∧
    exampleWorldUnaligned.target.rsp = 2147297847 ∧
    exampleWorldUnaligned.target.rsp % 16 = 7 ∧
    installed (remote_call exampleWorldUnaligned exampleFunction 6 [1, 2, 3, 4, 5, 6]).trace
      = some exampleWorkUnaligned ∧
    exampleWorkUnaligned.rsp = 2147297832 ∧
    alignLoop U64 exampleWorldUnaligned.target.rsp = some 2147297840 ∧
    specInstalledRsp 16 exampleWorldUnaligned.target.rsp = some 2147297832 ∧
    (exampleWorkUnaligned.rsp
        = sub64 (exampleWorldUnaligned.target.rsp - exampleWorldUnaligned.target.rsp % 16) 8 ∧
      specInstalledRsp 16 exampleWorldUnaligned.target.rsp = some exampleWorkUnaligned.rsp ∧
      Call.write exampleWorkUnaligned.rsp 0 8 ∈
        (remote_call exampleWorldUnaligned exampleFunction 6 [1, 2, 3, 4, 5, 6]).trace) :=
  ⟨by decide, by decide, by decide, by decide, by decide, by decide, by decide,
    (remote_call_installed_rsp exampleWorldUnaligned exampleFunction (by decide)).2.2.1
      6 [1, 2, 3, 4, 5, 6] exampleWorkUnaligned (by decide)⟩

/-! ## Symbol translation -/

/-- C5. Symbol translation keeps the offset inside the module: when both
`get_base` lookups succeed (neither returns 1), with `local_base` and
`remote_base`, `get_remote_function_address` returns
`p - local_base + remote_base` in 64-bit arithmetic, so the result minus
`remote_base` equals `p - local_base`. -/
theorem get_remote_function_address_offset (maps : MapsPath → Option (List Char)) (g_pid : Int)
    (module_name : List Char) (p local_base remote_base : Nat)
    (hl : get_base maps g_pid module_name 1 = local_base)
    (hr : get_base maps g_pid module_name 0 = remote_base)
    (hls : local_base ≠ 1) (hrs : remote_base ≠ 1) :
    get_remote_function_address maps g_pid module_name p
      = add64 (sub64 p local_base) remote_base ∧
    sub64 (get_remote_function_address maps g_pid module_name p) remote_base
      = sub64 p local_base := by
  have h1 : get_remote_function_address maps g_pid module_name p
      = add64 (sub64 p local_base) remote_base := by
    unfold get_remote_function_address
    simp only [hl, hr, hls, hrs, or_self, if_false]
  refine ⟨h1, ?_⟩
  rw [h1]
  unfold add64 sub64 U64
  omega

/-- Witness of C5: `libc` is at `0x7f0000000000` in the caller and at
`0x7e0000000000` in the target, so `0x7f0000000100` translates to
`0x7e0000000100`. -/
theorem get_remote_function_address_offset_witness :
    get_base exampleMaps 42 "/lib/libc.so".toList 1 = 139637976727552 ∧
    get_base exampleMaps 42 "/lib/libc.so".toList 0 = 138538465099776 ∧
    get_remote_function_address exampleMaps 42 "/lib/libc.so".toList exampleFunction
      = 138538465100032 ∧
    (get_remote_function_address exampleMaps 42 "/lib/libc.so".toList exampleFunction
      = add64 (sub64 exampleFunction 139637976727552) 138538465099776 ∧
    sub64 (get_remote_function_address exampleMaps 42 "/lib/libc.so".toList exampleFunction)
      138538465099776 = sub64 exampleFunction 139637976727552) :=
  ⟨by decide, by decide, by decide,
    get_remote_function_address_offset exampleMaps 42 "/lib/libc.so".toList exampleFunction
      139637976727552 138538465099776 (by decide) (by decide) (by decide) (by decide)⟩

/-! ## Memory transfers -/

/-- Below `2 ^ 63` the test of `read_memory` and `write_memory` is exact: 0
is returned only for a count equal to the length. -/
theorem memory_transfer_exact (c : Int) (length : Nat) (hlen : length < 9223372036854775808) :
    (read_memory c length = 0 ↔ c = (length : Int)) ∧
    (write_memory c length = 0 ↔ c = (length : Int)) := by
  have hs : toSsize length = (length : Int) := by
    unfold toSsize
    have h1 : length % U64 = length := by unfold U64; omega
    rw [h1]
    simp [hlen]
  unfold read_memory write_memory
  rw [hs]
  by_cases hc : c = (length : Int) <;> simp [hc]

/-- C6, the code at the failing input: for `length = SIZE_MAX` the cast
`(ssize_t)length` is -1, so a system call that fails with -1 and moves nothing
makes `read_memory` and `write_memory` return 0. -/
theorem memory_transfer_accepts_failure :
    toSsize 18446744073709551615 = -1 ∧
    read_memory (-1) 18446744073709551615 = 0 ∧
    write_memory (-1) 18446744073709551615 = 0 := by
  decide

/-! ## Reading a maps file line by line -/

theorem fgetsLines_line (size : Nat) (rest : List Char) :
    ∀ (t : List Char) (room : Nat) (cur : List Char), (∀ c ∈ t, c ≠ '\n') → t.length < room →
      fgetsLines size (t ++ '\n' :: rest) room cur
        = (cur ++ t ++ ['\n']) :: fgetsLines size rest (size - 1) [] := by
  intro t
  induction t with
  | nil =>
    intro room cur _ _
    simp [fgetsLines]
  | cons c t ih =>
    intro room cur hc hlen
    have hc1 : c ≠ '\n' := hc c (List.mem_cons_self _ _)
    have hroom : ¬ room ≤ 1 := by
      simp only [List.length_cons] at hlen
      omega
    have hlen2 : t.length < room - 1 := by
      simp only [List.length_cons] at hlen
      omega
    rw [List.cons_append, fgetsLines, if_neg (by simp [hc1, hroom])]
    rw [ih (room - 1) (cur ++ [c]) (fun x hx => hc x (List.mem_cons_of_mem _ hx)) hlen2]
    simp

theorem fileLines_mapsText (lines : List MapsLine) (hwf : ∀ l ∈ lines, l.WF) :
    fileLines 512 (mapsText lines) = lines.map MapsLine.text := by
  induction lines with
  | nil => rfl
  | cons l rest ih =>
    have hl := hwf l (List.mem_cons_self _ _)
    have hrest := ih (fun m hm => hwf m (List.mem_cons_of_mem _ hm))
    unfold fileLines at hrest ⊢
    simp only [mapsText, MapsLine.text, List.append_assoc, List.singleton_append, List.map_cons]
    rw [fgetsLines_line 512 _ l.body 511 [] (fun c hc => (hl.clean c hc).2) hl.fits]
    rw [hrest]
    simp [MapsLine.text]

/-! ## The `%lx` conversion on well-formed input -/

theorem hex_not_space (c : Char) (h : (hexDigit c).isSome = true) : isSpace c = false := by
  cases hs : isSpace c with
  | false => rfl
  | true =>
    exfalso
    simp only [isSpace, Bool.or_eq_true, beq_iff_eq] at hs
    rcases hs with ((((h1 | h1) | h1) | h1) | h1) | h1 <;> rw [h1] at h <;> revert h <;> decide

theorem hex_ne (c k : Char) (h : (hexDigit c).isSome = true) (hk : hexDigit k = none) : c ≠ k := by
  intro hck
  rw [hck, hk] at h
  simp at h

theorem skipHexMark_keep (a b : Char) (t : List Char) (h1 : b ≠ 'x') (h2 : b ≠ 'X') :
    skipHexMark (a :: b :: t) = a :: b :: t := by
  unfold skipHexMark
  split
  · rename_i heq
    simp only [List.cons.injEq] at heq
    exact absurd heq.2.1 h1
  · rename_i heq
    simp only [List.cons.injEq] at heq
    exact absurd heq.2.1 h2
  · rfl

theorem scanHexDigits_run (c0 : Char) (rest : List Char) (h0 : hexDigit c0 = none) :
    ∀ (ds : List Char) (acc n : Nat), (∀ c ∈ ds, (hexDigit c).isSome = true) →
      scanHexDigits (ds ++ c0 :: rest) acc n
        = (ds.foldl (fun acc c => acc * 16 + (hexDigit c).getD 0) acc, n + ds.length, c0 :: rest) := by
  intro ds
  induction ds with
  | nil =>
    intro acc n _
    simp [scanHexDigits, h0]
  | cons d ds ih =>
    intro acc n hd
    have h1 := hd d (List.mem_cons_self _ _)
    obtain ⟨v, hv⟩ := Option.isSome_iff_exists.mp h1
    rw [List.cons_append, scanHexDigits, hv]
    simp only
    rw [ih _ _ (fun x hx => hd x (List.mem_cons_of_mem _ hx))]
    simp only [List.foldl_cons, hv, Option.getD_some, List.length_cons, Prod.mk.injEq, and_true,
      true_and]
    omega

theorem skipHexMark_hex (c0 : Char) (rest : List Char) (hx : c0 ≠ 'x') (hX : c0 ≠ 'X')
    (ds : List Char) (hne : ds ≠ []) (hd : ∀ c ∈ ds, (hexDigit c).isSome = true) :
    skipHexMark (ds ++ c0 :: rest) = ds ++ c0 :: rest := by
  rcases ds with _ | ⟨d, _ | ⟨d', ds⟩⟩
  · exact absurd rfl hne
  · exact skipHexMark_keep d c0 rest hx hX
  · have h' : (hexDigit d').isSome = true := hd d' (by simp)
    exact skipHexMark_keep d d' _ (hex_ne d' 'x' h' (by decide)) (hex_ne d' 'X' h' (by decide))

/-- `%lx` on a run of hexadecimal digits that fits 64 bits and is followed by
a character that is no digit, `x` or `X`. -/
theorem scan_lx_hex (c0 : Char) (rest : List Char) (h0 : hexDigit c0 = none)
    (hx : c0 ≠ 'x') (hX : c0 ≠ 'X')
    (ds : List Char) (hne : ds ≠ []) (hd : ∀ c ∈ ds, (hexDigit c).isSome = true)
    (hlt : hexValue ds < U64) :
    scan_lx (ds ++ c0 :: rest) = some (hexValue ds, c0 :: rest) := by
  obtain ⟨d, ds', rfl⟩ := List.exists_cons_of_ne_nil hne
  have h1 : (hexDigit d).isSome = true := hd d (List.mem_cons_self _ _)
  have hsp : skipSpace (d :: ds' ++ c0 :: rest) = d :: ds' ++ c0 :: rest := by
    simp [skipSpace, List.dropWhile, hex_not_space d h1]
  have hminus : d ≠ '-' := hex_ne d '-' h1 (by decide)
  have hplus : d ≠ '+' := hex_ne d '+' h1 (by decide)
  have hrun := scanHexDigits_run c0 rest h0 (d :: ds') 0 0 hd
  have hlen : 0 + (d :: ds').length = ds'.length + 1 := by simp
  have hsign : scanSign (d :: ds' ++ c0 :: rest) = (false, d :: ds' ++ c0 :: rest) := by
    rw [List.cons_append]
    unfold scanSign
    split
    · rename_i heq
      simp only [List.cons.injEq] at heq
      exact absurd heq.1 hminus
    · rename_i heq
      simp only [List.cons.injEq] at heq
      exact absurd heq.1 hplus
    · rfl
  unfold scan_lx
  rw [hsp, hsign]
  simp only
  rw [skipHexMark_hex c0 rest hx hX (d :: ds') hne hd, hrun, hlen]
  simp only
  have hv : hexValue (d :: ds')
      = List.foldl (fun acc c => acc * 16 + (hexDigit c).getD 0) 0 (d :: ds') := rfl
  rw [← hv]
  simp [Nat.not_le.mpr hlt]

/-! ## Searching a line -/

theorem cstr_of_clean (s : List Char) (h : ∀ c ∈ s, c ≠ NUL) : cstr s = s := by
  unfold cstr
  rw [List.takeWhile_eq_self_iff]
  intro c hc
  simp [h c hc]

theorem startsWith_iff (pat : List Char) : ∀ s, startsWith s pat = true ↔ ∃ b, s = pat ++ b := by
  induction pat with
  | nil => intro s; simp [startsWith]
  | cons p ps ih =>
    intro s
    cases s with
    | nil => simp [startsWith]
    | cons c cs =>
      simp only [startsWith, Bool.and_eq_true, beq_iff_eq, ih, List.cons_append, List.cons.injEq]
      constructor
      · rintro ⟨h1, b, h2⟩
        exact ⟨b, h1, h2⟩
      · rintro ⟨b, h1, h2⟩
        exact ⟨h1, b, h2⟩

theorem findSub_isSome (pat : List Char) : ∀ s, (findSub pat s).isSome = true ↔ occursIn pat s := by
  intro s
  induction s with
  | nil =>
    unfold findSub occursIn
    cases pat with
    | nil => simp
    | cons p ps => simp
  | cons c cs ih =>
    unfold findSub
    by_cases hs : startsWith (c :: cs) pat = true
    · simp only [hs, if_true, Option.isSome_some, true_iff]
      obtain ⟨b, hb⟩ := (startsWith_iff pat _).mp hs
      exact ⟨[], b, by simpa using hb⟩
    · have hs' : startsWith (c :: cs) pat = false := by simpa using hs
      rw [hs']
      simp only [Bool.false_eq_true, if_false]
      rw [ih]
      unfold occursIn
      constructor
      · rintro ⟨a, b, h⟩
        exact ⟨c :: a, b, by simp [h]⟩
      · rintro ⟨a, b, h⟩
        cases a with
        | nil =>
          exfalso
          apply hs
          exact (startsWith_iff pat _).mpr ⟨b, by simpa using h⟩
        | cons a0 a =>
          simp only [List.cons_append, List.cons.injEq] at h
          exact ⟨a, b, h.2⟩

/-! ## `get_base` on well-formed lines -/

theorem text_clean (l : MapsLine) (hwf : l.WF) : ∀ c ∈ l.text, c ≠ NUL := by
  intro c hc
  unfold MapsLine.text at hc
  rcases List.mem_append.mp hc with h | h
  · exact (hwf.clean c h).1
  · rw [List.mem_singleton] at h
    rw [h]
    decide

/-- The text of a line behind its start address. -/
theorem text_split (l : MapsLine) :
    l.text = l.start ++ '-' :: (l.stop ++ ' ' :: (l.perms ++ ' ' :: (l.offset ++ ' ' ::
      (l.dev ++ ' ' :: (l.inode ++ ' ' :: (l.pad ++ l.path ++ ['\n'])))))) := by
  simp [MapsLine.text, MapsLine.body]

theorem sscanf_start_text (l : MapsLine) (hwf : l.WF) :
    sscanf_start l.text = some l.startAddress := by
  unfold sscanf_start
  rw [cstr_of_clean _ (text_clean l hwf), text_split,
    scan_lx_hex '-' _ (by decide) (by decide) (by decide) l.start hwf.start_ne hwf.start_hex
      hwf.start_lt]
  rfl

theorem sscanf_range_text (l : MapsLine) (hwf : l.WF) :
    sscanf_range l.text = (some l.startAddress, some l.endAddress) := by
  unfold sscanf_range
  rw [cstr_of_clean _ (text_clean l hwf), text_split,
    scan_lx_hex '-' _ (by decide) (by decide) (by decide) l.start hwf.start_ne hwf.start_hex
      hwf.start_lt]
  simp only
  rw [scan_lx_hex ' ' _ (by decide) (by decide) (by decide) l.stop hwf.stop_ne hwf.stop_hex
      hwf.stop_lt]
  rfl

theorem strstr_text (l : MapsLine) (hwf : l.WF) (needle : List Char)
    (hnul : ∀ c ∈ needle, c ≠ NUL) :
    (strstr l.text needle).isSome = true ↔ occursIn needle l.text := by
  unfold strstr
  rw [cstr_of_clean _ (text_clean l hwf), cstr_of_clean _ hnul]
  exact findSub_isSome needle l.text

theorem get_base_loop_none (needle : List Char) (hnul : ∀ c ∈ needle, c ≠ NUL) :
    ∀ lines : List MapsLine, (∀ l ∈ lines, l.WF) → (∀ l ∈ lines, ¬ occursIn needle l.text) →
      get_base_loop needle (lines.map MapsLine.text) = 0 := by
  intro lines
  induction lines with
  | nil => intro _ _; rfl
  | cons l rest ih =>
    intro hwf hno
    have h1 : (strstr l.text needle).isSome = false := by
      cases h : (strstr l.text needle).isSome with
      | false => rfl
      | true =>
        exact absurd ((strstr_text l (hwf l (List.mem_cons_self _ _)) needle hnul).mp h)
          (hno l (List.mem_cons_self _ _))
    simp only [List.map_cons, get_base_loop, h1, Bool.false_eq_true, if_false]
    exact ih (fun m hm => hwf m (List.mem_cons_of_mem _ hm))
      (fun m hm => hno m (List.mem_cons_of_mem _ hm))

theorem get_base_loop_first (needle : List Char) (hnul : ∀ c ∈ needle, c ≠ NUL)
    (l : MapsLine) (post : List MapsLine) (hl : occursIn needle l.text) :
    ∀ pre : List MapsLine, (∀ m ∈ pre ++ l :: post, m.WF) →
      (∀ m ∈ pre, ¬ occursIn needle m.text) →
      get_base_loop needle ((pre ++ l :: post).map MapsLine.text) = l.startAddress := by
  intro pre
  induction pre with
  | nil =>
    intro hwf _
    have hwl := hwf l (by simp)
    have h1 := (strstr_text l hwl needle hnul).mpr hl
    simp only [List.nil_append, List.map_cons, get_base_loop, h1, if_true,
      sscanf_start_text l hwl]
  | cons m pre ih =>
    intro hwf hno
    have h1 : (strstr m.text needle).isSome = false := by
      cases h : (strstr m.text needle).isSome with
      | false => rfl
      | true =>
        exact absurd ((strstr_text m (hwf m (by simp)) needle hnul).mp h)
          (hno m (List.mem_cons_self _ _))
    simp only [List.cons_append, List.map_cons, get_base_loop, h1, Bool.false_eq_true, if_false]
    exact ih (fun x hx => hwf x (by simp only [List.cons_append, List.mem_cons]; exact Or.inr hx))
      (fun x hx => hno x (List.mem_cons_of_mem _ hx))

/-! ## `get_local_module_name` on well-formed lines -/

theorem dropWhile_append_skip (p : Char → Bool) (b : List Char) :
    ∀ a : List Char, (∀ x ∈ a, p x = true) → (a ++ b).dropWhile p = b.dropWhile p := by
  intro a
  induction a with
  | nil => intro _; rfl
  | cons x a ih =>
    intro h
    rw [List.cons_append, List.dropWhile_cons, if_pos (h x (List.mem_cons_self _ _))]
    exact ih (fun y hy => h y (List.mem_cons_of_mem _ hy))

theorem dropWhile_append_hit (p : Char → Bool) (b : List Char) :
    ∀ a : List Char, (∃ x ∈ a, p x = false) → (a ++ b).dropWhile p = a.dropWhile p ++ b := by
  intro a
  induction a with
  | nil => intro h; obtain ⟨x, hx, _⟩ := h; simp at hx
  | cons y a ih =>
    intro h
    by_cases hy : p y = true
    · rw [List.cons_append, List.dropWhile_cons, if_pos hy, List.dropWhile_cons, if_pos hy]
      apply ih
      obtain ⟨x, hx, hpx⟩ := h
      rcases List.mem_cons.mp hx with h1 | h1
      · rw [h1, hy] at hpx
        exact absurd hpx (by simp)
      · exact ⟨x, h1, hpx⟩
    · rw [List.cons_append, List.dropWhile_cons, if_neg hy, List.dropWhile_cons, if_neg hy]
      rfl

theorem takeWhile_append_stop (p : Char → Bool) (c : Char) (hc : p c = false) :
    ∀ a : List Char, (∀ x ∈ a, p x = true) → (a ++ [c]).takeWhile p = a := by
  intro a
  induction a with
  | nil => intro _; simp [List.takeWhile, hc]
  | cons x a ih =>
    intro h
    rw [List.cons_append, List.takeWhile_cons, if_pos (h x (List.mem_cons_self _ _)),
      ih (fun y hy => h y (List.mem_cons_of_mem _ hy))]

/-- Before the path a line has no `/`. -/
theorem text_front (l : MapsLine) (hwf : l.WF) :
    ∃ front, l.text = front ++ (l.path ++ ['\n']) ∧ ∀ c ∈ front, c ≠ '/' := by
  refine ⟨l.start ++ '-' :: (l.stop ++ ' ' :: (l.perms ++ ' ' :: (l.offset ++ ' ' ::
      (l.dev ++ ' ' :: (l.inode ++ ' ' :: l.pad))))), by simp [MapsLine.text, MapsLine.body], ?_⟩
  intro c hc
  have hs := hwf.slash
  simp only [List.mem_append, List.mem_cons] at hc hs
  have hdash : ('-' : Char) ≠ '/' := by decide
  have hblank : (' ' : Char) ≠ '/' := by decide
  rcases hc with h | h | h | h | h | h | h | h | h | h | h | h | h
  · exact hex_ne c '/' (hwf.start_hex c h) (by decide)
  · rw [h]; exact hdash
  · exact hex_ne c '/' (hwf.stop_hex c h) (by decide)
  · rw [h]; exact hblank
  · exact hs c (Or.inl (Or.inl (Or.inl (Or.inl h))))
  · rw [h]; exact hblank
  · exact hs c (Or.inl (Or.inl (Or.inl (Or.inr h))))
  · rw [h]; exact hblank
  · exact hs c (Or.inl (Or.inl (Or.inr h)))
  · rw [h]; exact hblank
  · exact hs c (Or.inl (Or.inr h))
  · rw [h]; exact hblank
  · exact hs c (Or.inr h)

theorem path_clean (l : MapsLine) (hwf : l.WF) : ∀ c ∈ l.path, c ≠ '\n' := by
  intro c hc
  apply (hwf.clean c _).2
  simp [MapsLine.body, hc]

theorem strchr_text (l : MapsLine) (hwf : l.WF) :
    strchr l.text '/' =
      if '/' ∈ l.path then some (l.path.dropWhile (fun d => d != '/') ++ ['\n']) else none := by
  obtain ⟨front, hf, hfront⟩ := text_front l hwf
  unfold strchr
  rw [cstr_of_clean _ (text_clean l hwf), hf,
    dropWhile_append_skip _ _ front (fun x hx => by simp [hfront x hx])]
  by_cases hp : '/' ∈ l.path
  · rw [if_pos hp, dropWhile_append_hit _ _ l.path ⟨'/', hp, by simp⟩]
    have hne : l.path.dropWhile (fun d => d != '/') ≠ [] := by
      intro he
      rw [List.dropWhile_eq_nil_iff] at he
      have := he '/' hp
      simp at this
    cases hd : l.path.dropWhile (fun d => d != '/') with
    | nil => exact absurd hd hne
    | cons x xs => rfl
  · rw [if_neg hp, dropWhile_append_skip _ _ l.path (fun x hx => by
      have : x ≠ '/' := fun h => hp (h ▸ hx)
      simp [this])]
    rfl

theorem cutNewline_path (l : MapsLine) (hwf : l.WF) :
    cutNewline (l.path.dropWhile (fun d => d != '/') ++ ['\n'])
      = l.path.dropWhile (fun d => d != '/') := by
  unfold cutNewline
  apply takeWhile_append_stop _ _ (by decide)
  intro x hx
  have hmem : x ∈ l.path := (List.dropWhile_sublist _).subset hx
  simp [path_clean l hwf x hmem]

theorem module_loop_hit (address : Nat) (l : MapsLine) (hwf : l.WF) (rest : List (List Char))
    (hc : l.covers address) (hp : '/' ∈ l.path) :
    get_local_module_name_loop address (l.text :: rest)
      = ModuleName.found (l.path.dropWhile (fun d => d != '/')) := by
  unfold MapsLine.covers at hc
  unfold get_local_module_name_loop
  rw [sscanf_range_text l hwf]
  simp only [ge_iff_le, hc.1, hc.2, if_true]
  rw [strchr_text l hwf, if_pos hp]
  simp only
  rw [cutNewline_path l hwf]

theorem module_loop_miss (address : Nat) (l : MapsLine) (hwf : l.WF) (rest : List (List Char))
    (hno : ¬ (l.covers address ∧ '/' ∈ l.path)) :
    get_local_module_name_loop address (l.text :: rest)
      = get_local_module_name_loop address rest := by
  unfold MapsLine.covers at hno
  rw [get_local_module_name_loop, sscanf_range_text l hwf]
  simp only [ge_iff_le]
  by_cases h1 : l.startAddress ≤ address
  · simp only [h1, if_true]
    by_cases h2 : address ≤ l.endAddress
    · simp only [h2, if_true]
      have hp : '/' ∉ l.path := fun hp => hno ⟨⟨h1, h2⟩, hp⟩
      rw [strchr_text l hwf, if_neg hp]
    · simp only [h2, if_false]
  · simp only [h1, if_false]

theorem module_loop_none (address : Nat) :
    ∀ lines : List MapsLine, (∀ l ∈ lines, l.WF) →
      (∀ l ∈ lines, ¬ (l.covers address ∧ '/' ∈ l.path)) →
      get_local_module_name_loop address (lines.map MapsLine.text) = ModuleName.missing := by
  intro lines
  induction lines with
  | nil => intro _ _; rfl
  | cons l rest ih =>
    intro hwf hno
    rw [List.map_cons, module_loop_miss address l (hwf l (List.mem_cons_self _ _)) _
      (hno l (List.mem_cons_self _ _))]
    exact ih (fun m hm => hwf m (List.mem_cons_of_mem _ hm))
      (fun m hm => hno m (List.mem_cons_of_mem _ hm))

theorem module_loop_first (address : Nat) (l : MapsLine) (post : List MapsLine)
    (hc : l.covers address) (hp : '/' ∈ l.path) :
    ∀ pre : List MapsLine, (∀ m ∈ pre ++ l :: post, m.WF) →
      (∀ m ∈ pre, ¬ (m.covers address ∧ '/' ∈ m.path)) →
      get_local_module_name_loop address ((pre ++ l :: post).map MapsLine.text)
        = ModuleName.found (l.path.dropWhile (fun d => d != '/')) := by
  intro pre
  induction pre with
  | nil =>
    intro hwf _
    rw [List.nil_append, List.map_cons]
    exact module_loop_hit address l (hwf l (by simp)) _ hc hp
  | cons m pre ih =>
    intro hwf hno
    rw [List.cons_append, List.map_cons, module_loop_miss address m (hwf m (by simp)) _
      (hno m (List.mem_cons_self _ _))]
    exact ih (fun x hx => hwf x (by simp only [List.cons_append, List.mem_cons]; exact Or.inr hx))
      (fun x hx => hno x (List.mem_cons_of_mem _ hx))

/-! ## `get_process_id` -/

theorem fgetsLines_cur (size : Nat) :
    ∀ (s : List Char) (room : Nat) (cur : List Char), cur ≠ [] →
      ∃ more tail, fgetsLines size s room cur = (cur ++ more) :: tail := by
  intro s
  induction s with
  | nil =>
    intro room cur hcur
    refine ⟨[], [], ?_⟩
    cases cur with
    | nil => exact absurd rfl hcur
    | cons x xs => simp [fgetsLines]
  | cons c cs ih =>
    intro room cur hcur
    rw [fgetsLines]
    by_cases hcut : c = '\n' ∨ room ≤ 1
    · rw [if_pos hcut]
      exact ⟨[c], _, rfl⟩
    · rw [if_neg hcut]
      obtain ⟨more, tail, h⟩ := ih (room - 1) (cur ++ [c]) (by simp)
      exact ⟨c :: more, tail, by rw [h]; simp⟩

theorem fgetsLines_head (size : Nat) (c : Char) (rest : List Char) :
    ∀ (s : List Char) (room : Nat) (cur : List Char), (∀ x ∈ s, x ≠ '\n') → s.length < room →
      ∃ more tail, fgetsLines size (s ++ c :: rest) room cur = (cur ++ s ++ c :: more) :: tail := by
  intro s
  induction s with
  | nil =>
    intro room cur _ _
    rw [List.nil_append, fgetsLines]
    by_cases hcut : c = '\n' ∨ room ≤ 1
    · rw [if_pos hcut]
      exact ⟨[], fgetsLines size rest (size - 1) [], by simp⟩
    · rw [if_neg hcut]
      obtain ⟨more, tail, h⟩ := fgetsLines_cur size rest (room - 1) (cur ++ [c]) (by simp)
      exact ⟨more, tail, by rw [h]; simp⟩
  | cons x s ih =>
    intro room cur hs hlen
    have hx : x ≠ '\n' := hs x (List.mem_cons_self _ _)
    have hroom : ¬ room ≤ 1 := by
      simp only [List.length_cons] at hlen
      omega
    have hlen2 : s.length < room - 1 := by
      simp only [List.length_cons] at hlen
      omega
    rw [List.cons_append, fgetsLines, if_neg (by simp [hx, hroom])]
    obtain ⟨more, tail, h⟩ := ih (room - 1) (cur ++ [x])
      (fun y hy => hs y (List.mem_cons_of_mem _ hy)) hlen2
    exact ⟨more, tail, by rw [h]; simp⟩

theorem cstr_append_nul (s more : List Char) (hs : ∀ x ∈ s, x ≠ NUL) :
    cstr (s ++ NUL :: more) = s := by
  unfold cstr
  induction s with
  | nil => simp [List.takeWhile]
  | cons x s ih =>
    have hx : x ≠ NUL := hs x (List.mem_cons_self _ _)
    rw [List.cons_append, List.takeWhile_cons, if_pos (by simp [hx]),
      ih (fun y hy => hs y (List.mem_cons_of_mem _ hy))]

/-- For a `cmdline` whose first string is shorter than the buffer and has no
newline, the buffer holds that first string: `argv[0]`. -/
theorem cmdlineBuffer_first_string (s rest : List Char) (hnul : ∀ x ∈ s, x ≠ NUL)
    (hnl : ∀ x ∈ s, x ≠ '\n') (hlen : s.length < 127) :
    cmdlineBuffer (s ++ NUL :: rest) = s := by
  unfold cmdlineBuffer fileLines
  obtain ⟨more, tail, h⟩ := fgetsLines_head 128 NUL rest s 127 [] hnl hlen
  rw [show (128 - 1 : Nat) = 127 from rfl, h]
  simp only [List.nil_append]
  exact cstr_append_nul s more hnul

theorem process_loop_hit (d : ProcDir) (literal name : List Char) (rest : List (List Char))
    (h : cmdlineMatches d literal name) :
    get_process_id_loop d literal (name :: rest) = atoi name := by
  obtain ⟨hpos, content, hfile, heq⟩ := h
  rw [get_process_id_loop]
  simp only [gt_iff_lt, hpos, if_true, hfile]
  have hcmp : strcmp_eq (cmdlineBuffer content) literal = true := by
    unfold strcmp_eq
    simp [heq]
  rw [hcmp, if_pos rfl]

theorem process_loop_miss (d : ProcDir) (literal name : List Char) (rest : List (List Char))
    (h : ¬ cmdlineMatches d literal name) :
    get_process_id_loop d literal (name :: rest) = get_process_id_loop d literal rest := by
  rw [get_process_id_loop]
  simp only [gt_iff_lt]
  by_cases hpos : 0 < atoi name
  · simp only [hpos, if_true]
    cases hfile : d.cmdline (atoi name) with
    | none => rfl
    | some content =>
      simp only
      have hcmp : strcmp_eq (cmdlineBuffer content) literal = false := by
        cases hc : strcmp_eq (cmdlineBuffer content) literal with
        | false => rfl
        | true =>
          exfalso
          apply h
          unfold strcmp_eq at hc
          exact ⟨hpos, content, hfile, by simpa using hc⟩
      rw [hcmp]
      simp
  · simp only [hpos, if_false]

theorem process_loop_none (d : ProcDir) (literal : List Char) :
    ∀ names : List (List Char), (∀ n ∈ names, ¬ cmdlineMatches d literal n) →
      get_process_id_loop d literal names = -1 := by
  intro names
  induction names with
  | nil => intro _; rfl
  | cons n rest ih =>
    intro hno
    rw [process_loop_miss d literal n rest (hno n (List.mem_cons_self _ _))]
    exact ih (fun m hm => hno m (List.mem_cons_of_mem _ hm))

theorem process_loop_first (d : ProcDir) (literal name : List Char) (post : List (List Char))
    (h : cmdlineMatches d literal name) :
    ∀ pre : List (List Char), (∀ n ∈ pre, ¬ cmdlineMatches d literal n) →
      get_process_id_loop d literal (pre ++ name :: post) = atoi name := by
  intro pre
  induction pre with
  | nil => intro _; exact process_loop_hit d literal name post h
  | cons n pre ih =>
    intro hno
    rw [List.cons_append, process_loop_miss d literal n _ (hno n (List.mem_cons_self _ _))]
    exact ih (fun m hm => hno m (List.mem_cons_of_mem _ hm))

/-! ## The concrete inputs are well formed -/

theorem exampleBinLine_wf : exampleBinLine.WF :=
  ⟨by decide, by decide, by decide, by decide, by decide, by decide, by decide, by decide,
    by decide⟩

theorem exampleLibcLine_wf : exampleLibcLine.WF :=
  ⟨by decide, by decide, by decide, by decide, by decide, by decide, by decide, by decide,
    by decide⟩

theorem exampleAnonLine_wf : exampleAnonLine.WF :=
  ⟨by decide, by decide, by decide, by decide, by decide, by decide, by decide, by decide,
    by decide⟩

theorem exampleLibLine_wf : exampleLibLine.WF :=
  ⟨by decide, by decide, by decide, by decide, by decide, by decide, by decide, by decide,
    by decide⟩

theorem exampleTargetLines_wf : ∀ l ∈ exampleTargetLines, l.WF := by
  intro l hl
  simp only [exampleTargetLines, List.mem_cons, List.mem_singleton, List.not_mem_nil,
    or_false] at hl
  rcases hl with h | h
  · rw [h]; exact exampleBinLine_wf
  · rw [h]; exact exampleLibcLine_wf

theorem exampleAdjacentLines_wf : ∀ l ∈ exampleAdjacentLines, l.WF := by
  intro l hl
  simp only [exampleAdjacentLines, List.mem_cons, List.mem_singleton, List.not_mem_nil,
    or_false] at hl
  rcases hl with h | h
  · rw [h]; exact exampleAnonLine_wf
  · rw [h]; exact exampleLibLine_wf

theorem not_occursIn (needle text : List Char) (h : (findSub needle text).isSome = false) :
    ¬ occursIn needle text := by
  intro ho
  rw [(findSub_isSome needle text).mpr ho] at h
  exact absurd h (by simp)

/-! ## Process lookup -/

/-- Counterexample to C7: the `cmdline` of pid 42 is `testbin`, NUL, `--flag`,
NUL; no entry has a buffer equal to the literal `testbin` (with or without
its terminating NUL), yet `get_process_id` returns 42, because `strcmp` stops
at the first NUL of the buffer. -/
theorem get_process_id_matches_first_string :
    exampleProc.cmdline 42 = some exampleCmdline ∧
    (∀ n ∈ exampleProc.entries,
      exampleProc.cmdline (atoi n) ≠ some "testbin".toList ∧
      exampleProc.cmdline (atoi n) ≠ some ("testbin".toList ++ [NUL])) ∧
    get_process_id (some exampleProc) "testbin".toList = 42 ∧
    get_process_id (some exampleProc) "testbin".toList ≠ 1 := by
  decide

/-- C7, amended. For every literal with a non-empty C string,
`get_process_id` returns the pid of the first enumerated entry whose name
reads as a positive pid, whose `cmdline` opens, and whose buffer agrees with
the literal up to the first NUL byte of each (the comparison is `strcmp`, so
bytes behind the first NUL are not compared); it returns 1 when there is no
such entry. -/
theorem get_process_id_first_match (d : ProcDir) (literal : List Char)
    (hne : cstr literal ≠ []) :
    (∀ pre name post, d.entries = pre ++ name :: post →
      (∀ n ∈ pre, ¬ cmdlineMatches d literal n) → cmdlineMatches d literal name →
      get_process_id (some d) literal = atoi name) ∧
    ((∀ n ∈ d.entries, ¬ cmdlineMatches d literal n) → get_process_id (some d) literal = 1) := by
  constructor
  · intro pre name post hsplit hpre hname
    unfold get_process_id
    rw [if_neg hne]
    simp only
    rw [hsplit, process_loop_first d literal name post hname pre hpre]
    have hpos := hname.1
    rw [if_neg (by omega)]
  · intro hno
    unfold get_process_id
    rw [if_neg hne]
    simp only
    rw [process_loop_none d literal d.entries hno]
    rfl

/-- Witness of C7 (amended): `self` is skipped and pid 42 matches on its
first string. -/
theorem get_process_id_first_match_witness :
    cstr "testbin".toList ≠ [] ∧
    exampleProc.entries = ["self".toList] ++ "42".toList :: [] ∧
    ¬ cmdlineMatches exampleProc "testbin".toList "self".toList ∧
    cmdlineMatches exampleProc "testbin".toList "42".toList ∧
    get_process_id (some exampleProc) "testbin".toList = atoi "42".toList ∧
    atoi "42".toList = 42 :=
  have hself : ¬ cmdlineMatches exampleProc "testbin".toList "self".toList :=
    fun h => absurd h.1 (by decide)
  have h42 : cmdlineMatches exampleProc "testbin".toList "42".toList :=
    ⟨by decide, exampleCmdline, by decide, by decide⟩
  ⟨by decide, by decide, hself, h42,
    (get_process_id_first_match exampleProc "testbin".toList (by decide)).1
      ["self".toList] "42".toList [] (by decide)
      (fun n hn => by
        rw [List.mem_singleton] at hn
        rw [hn]
        exact hself) h42,
    by decide⟩

theorem occursIn_of_findSub (needle text : List Char) (h : (findSub needle text).isSome = true) :
    occursIn needle text := (findSub_isSome needle text).mp h

/-! ## Module lookup -/

/-- Counterexample to C8: no path of the target's maps file contains `r-xp`,
but the permissions of its first line do, and `get_base` returns the start
address `0x400000` of that line instead of failing. -/
theorem get_base_matches_outside_path :
    exampleLookupMaps (MapsPath.pid 42) = some (mapsText exampleTargetLines) ∧
    (∀ l ∈ exampleTargetLines, ¬ occursIn "r-xp".toList l.path) ∧
    get_base exampleLookupMaps 42 "r-xp".toList 0 = 4194304 ∧
    get_base exampleLookupMaps 42 "r-xp".toList 0 ≠ 1 := by
  refine ⟨by decide, ?_, by decide, by decide⟩
  intro l hl
  apply not_occursIn
  revert l
  decide

/-- C8, amended. For every non-empty needle and every maps file of
well-formed lines, `get_base` returns the start address of the first line
whose text contains the needle anywhere (address range, permissions, offset,
device and inode included, not only the path), or 1 when that start address
is 0; it returns 1 when no line contains the needle. -/
theorem get_base_first_line_with_needle (maps : MapsPath → Option (List Char)) (pid : Int)
    (needle : List Char) (is_local : Int) (lines : List MapsLine)
    (hne : needle ≠ []) (hnul : ∀ c ∈ needle, c ≠ NUL)
    (hfile : maps (if is_local = 1 then MapsPath.self else MapsPath.pid pid)
      = some (mapsText lines))
    (hwf : ∀ l ∈ lines, l.WF) :
    (∀ pre l post, lines = pre ++ l :: post →
      (∀ m ∈ pre, ¬ occursIn needle m.text) → occursIn needle l.text →
      get_base maps pid needle is_local = if l.startAddress = 0 then 1 else l.startAddress) ∧
    ((∀ m ∈ lines, ¬ occursIn needle m.text) → get_base maps pid needle is_local = 1) := by
  have hc : cstr needle ≠ [] := by
    rw [cstr_of_clean needle hnul]
    exact hne
  constructor
  · intro pre l post hsplit hpre hl
    unfold get_base
    rw [if_neg hc, hfile]
    simp only
    rw [fileLines_mapsText lines hwf, hsplit,
      get_base_loop_first needle hnul l post hl pre (hsplit ▸ hwf) hpre]
  · intro hno
    unfold get_base
    rw [if_neg hc, hfile]
    simp only
    rw [fileLines_mapsText lines hwf, get_base_loop_none needle hnul lines hwf hno]
    rfl

/-- Witness of C8 (amended): `libc` first occurs in the second line of the
target's maps file. -/
theorem get_base_first_line_with_needle_witness :
    "libc".toList ≠ [] ∧ (∀ c ∈ "libc".toList, c ≠ NUL) ∧
    exampleLookupMaps (if (0 : Int) = 1 then MapsPath.self else MapsPath.pid 42)
      = some (mapsText exampleTargetLines) ∧
    (∀ l ∈ exampleTargetLines, l.WF) ∧
    exampleTargetLines = [exampleBinLine] ++ exampleLibcLine :: [] ∧
    ¬ occursIn "libc".toList exampleBinLine.text ∧
    occursIn "libc".toList exampleLibcLine.text ∧
    get_base exampleLookupMaps 42 "libc".toList 0
      = (if exampleLibcLine.startAddress = 0 then 1 else exampleLibcLine.startAddress) ∧
    exampleLibcLine.startAddress = 138538465099776 :=
  have hbin : ¬ occursIn "libc".toList exampleBinLine.text := not_occursIn _ _ (by decide)
  have hlibc : occursIn "libc".toList exampleLibcLine.text := occursIn_of_findSub _ _ (by decide)
  ⟨by decide, by decide, by decide, exampleTargetLines_wf, rfl, hbin, hlibc,
    (get_base_first_line_with_needle exampleLookupMaps 42 "libc".toList 0 exampleTargetLines
      (by decide) (by decide) (by decide) exampleTargetLines_wf).1
      [exampleBinLine] exampleLibcLine [] rfl
      (fun m hm => by
        rw [List.mem_singleton] at hm
        rw [hm]
        exact hbin) hlibc,
    by decide⟩

/-- Counterexample to C9: the first line with `start <= address <= end` for
the address `0x2000` is the anonymous mapping `1000-2000`, which has no `/`;
`get_local_module_name` goes on and returns the path of the next line. -/
theorem get_local_module_name_skips_pathless_line :
    exampleLookupMaps (MapsPath.pid 10) = some (mapsText exampleAdjacentLines) ∧
    exampleAdjacentLines = [exampleAnonLine, exampleLibLine] ∧
    exampleAnonLine.covers 8192 ∧
    '/' ∉ exampleAnonLine.text ∧
    get_local_module_name exampleLookupMaps 10 8192 = ModuleName.found "/lib/a.so".toList ∧
    get_local_module_name exampleLookupMaps 10 8192
      ≠ ModuleName.found (cutNewline (exampleAnonLine.text.dropWhile (fun c => c != '/'))) :=
  ⟨by decide, rfl, by decide, by decide, by decide, by decide⟩

/-- C9, amended. For every address and every maps file of well-formed lines,
`get_local_module_name` selects the first line with `start <= address <= end`
that has a `/` in its path, and writes to `module_name` the text of that line
from its first `/` to the end of the line without the newline (so the result
begins with `/` and has no newline); it returns 1 when no line both contains
the address and has a `/`. -/
theorem get_local_module_name_first_line_with_path (maps : MapsPath → Option (List Char))
    (getpid : Int) (address : Nat) (lines : List MapsLine)
    (hfile : maps (MapsPath.pid getpid) = some (mapsText lines))
    (hwf : ∀ l ∈ lines, l.WF) :
    (∀ pre l post, lines = pre ++ l :: post →
      (∀ m ∈ pre, ¬ (m.covers address ∧ '/' ∈ m.path)) → l.covers address → '/' ∈ l.path →
      ∃ module_name, get_local_module_name maps getpid address = ModuleName.found module_name ∧
        module_name = l.path.dropWhile (fun c => c != '/') ∧
        module_name.head? = some '/' ∧ '\n' ∉ module_name) ∧
    ((∀ m ∈ lines, ¬ (m.covers address ∧ '/' ∈ m.path)) →
      get_local_module_name maps getpid address = ModuleName.missing) := by
  constructor
  · intro pre l post hsplit hpre hc hp
    refine ⟨l.path.dropWhile (fun c => c != '/'), ?_, rfl, ?_, ?_⟩
    · unfold get_local_module_name
      rw [hfile]
      simp only
      rw [fileLines_mapsText lines hwf, hsplit]
      exact module_loop_first address l post hc hp pre (hsplit ▸ hwf) hpre
    · cases hd : l.path.dropWhile (fun c => c != '/') with
      | nil =>
        rw [List.dropWhile_eq_nil_iff] at hd
        have := hd '/' hp
        simp at this
      | cons x xs =>
        have := List.head_dropWhile_not (fun c => c != '/') l.path (by rw [hd]; simp)
        simp only [hd, List.head_cons] at this
        have hx : x = '/' := by simpa using this
        rw [List.head?_cons, hx]
    · intro hmem
      have hl : l ∈ lines := by rw [hsplit]; simp
      exact path_clean l (hwf l hl) '\n' ((List.dropWhile_sublist _).subset hmem) rfl
  · intro hno
    unfold get_local_module_name
    rw [hfile]
    simp only
    rw [fileLines_mapsText lines hwf]
    exact module_loop_none address lines hwf hno

/-- Witness of C9 (amended): for the address `0x2000` the anonymous line is
passed over and the library line selected. -/
theorem get_local_module_name_first_line_with_path_witness :
    exampleLookupMaps (MapsPath.pid 10) = some (mapsText exampleAdjacentLines) ∧
    (∀ l ∈ exampleAdjacentLines, l.WF) ∧
    exampleAdjacentLines = [exampleAnonLine] ++ exampleLibLine :: [] ∧
    ¬ (exampleAnonLine.covers 8192 ∧ '/' ∈ exampleAnonLine.path) ∧
    exampleLibLine.covers 8192 ∧ '/' ∈ exampleLibLine.path ∧
    (∃ module_name,
      get_local_module_name exampleLookupMaps 10 8192 = ModuleName.found module_name ∧
      module_name = exampleLibLine.path.dropWhile (fun c => c != '/') ∧
      module_name.head? = some '/' ∧ '\n' ∉ module_name) :=
  ⟨by decide, exampleAdjacentLines_wf, rfl, by decide, by decide, by decide,
    (get_local_module_name_first_line_with_path exampleLookupMaps 10 8192 exampleAdjacentLines
      (by decide) exampleAdjacentLines_wf).1
      [exampleAnonLine] exampleLibLine [] rfl
      (fun m hm => by
        rw [List.mem_singleton] at hm
        rw [hm]
        decide) (by decide) (by decide)⟩

/-! ## Termination of the alignment loop -/

/-- The counting loop is the loop: it leaves the same `rsp`. -/
theorem alignSteps_fst (fuel : Nat) : ∀ rsp done,
    (alignSteps fuel rsp done).map Prod.fst = alignLoop fuel rsp := by
  induction fuel with
  | zero =>
    intro rsp done
    unfold alignSteps alignLoop
    by_cases h : alignCond rsp = true <;> simp [h]
  | succ f ih =>
    intro rsp done
    unfold alignSteps alignLoop
    by_cases h : alignCond rsp = true
    · simp only [h, if_true]
      exact ih _ _
    · simp [h]

theorem alignSteps_eq (fuel : Nat) : ∀ rsp done, rsp < U64 →
    alignSteps fuel rsp done
      = if rsp % 16 ≤ fuel then some (rsp - rsp % 16, done + rsp % 16) else none := by
  induction fuel with
  | zero =>
    intro rsp done _
    unfold alignSteps
    rw [alignCond_eq]
    by_cases h0 : rsp % 16 = 0 <;> simp [h0]
  | succ f ih =>
    intro rsp done hlt
    unfold alignSteps
    rw [alignCond_eq]
    by_cases h0 : rsp % 16 = 0
    · simp [h0]
    · have hlt2 : rsp - 1 < U64 := by omega
      simp only [h0, ne_eq, not_false_eq_true, decide_True, if_true]
      rw [sub64_one rsp hlt h0, ih _ _ hlt2]
      have hm : (rsp - 1) % 16 = rsp % 16 - 1 := by omega
      rw [hm]
      by_cases hle : rsp % 16 ≤ f + 1
      · have h1 : rsp % 16 - 1 ≤ f := by omega
        have he : rsp - 1 - (rsp % 16 - 1) = rsp - rsp % 16 := by omega
        have hd : done + 1 + (rsp % 16 - 1) = done + rsp % 16 := by omega
        simp only [h1, hle, if_true, he, hd]
      · have h1 : ¬ rsp % 16 - 1 ≤ f := by omega
        simp only [h1, hle, if_false]

/-- C12. The alignment loop ends and lowers the stack pointer by less than
one alignment unit: for every 64-bit snapshot `s` the loop of lines 278-280
runs its body exactly `s mod 16` times (at most 15; that many executions
suffice and no smaller number does) and leaves `rsp = s - s mod 16`, which is
`s` with its low four bits cleared; every decrement is made at a value that is
positive, so `rsp--` never wraps below zero. -/
theorem alignLoop_iterations (s : Nat) (hs : s < U64) :
    alignSteps U64 s 0 = some (s - s % 16, s % 16) ∧
    alignLoop U64 s = some (s - s % 16) ∧
    s % 16 ≤ 15 ∧
    alignLoop (s % 16) s = some (s - s % 16) ∧
    (∀ k, k < s % 16 → alignLoop k s = none) ∧
    (s - s % 16) &&& 0xF = 0 ∧ (s - s % 16) / 16 = s / 16 ∧
    s - (s - s % 16) < 16 ∧
    (∀ i, i < s % 16 →
      alignCond (s - i) = true ∧ 0 < s - i ∧ sub64 (s - i) 1 = s - (i + 1)) ∧
    alignCond (s - s % 16) = false := by
  have hfuel : s % 16 ≤ U64 := by unfold U64; omega
  refine ⟨?_, alignLoop_U64 s hs, by omega, ?_, ?_, ?_, by omega, by omega, ?_, ?_⟩
  · rw [alignSteps_eq U64 s 0 hs, if_pos hfuel, Nat.zero_add]
  · rw [alignLoop_eq _ s hs, if_pos (Nat.le_refl _)]
  · intro k hk
    rw [alignLoop_eq _ s hs, if_neg (by omega)]
  · rw [and_0xF]
    omega
  · intro i hi
    have hmod : (s - i) % 16 ≠ 0 := by omega
    have hlt : s - i < U64 := by omega
    refine ⟨?_, by omega, ?_⟩
    · rw [alignCond_eq]
      simp [hmod]
    · rw [sub64_one (s - i) hlt hmod]
      omega
  · rw [alignCond_eq]
    have : (s - s % 16) % 16 = 0 := by omega
    simp [this]

/-- Witness of C12: from `0x7ffd1003` the loop makes 3 decrements and leaves
`0x7ffd1000`. -/
theorem alignLoop_iterations_witness :
    2147291139 < U64 ∧
    (alignSteps U64 2147291139 0 = some (2147291139 - 2147291139 % 16, 2147291139 % 16) ∧
    alignLoop U64 2147291139 = some (2147291139 - 2147291139 % 16) ∧
    2147291139 % 16 ≤ 15 ∧
    alignLoop (2147291139 % 16) 2147291139 = some (2147291139 - 2147291139 % 16) ∧
    (∀ k, k < 2147291139 % 16 → alignLoop k 2147291139 = none) ∧
    (2147291139 - 2147291139 % 16) &&& 0xF = 0 ∧
    (2147291139 - 2147291139 % 16) / 16 = 2147291139 / 16 ∧
    2147291139 - (2147291139 - 2147291139 % 16) < 16 ∧
    (∀ i, i < 2147291139 % 16 →
      alignCond (2147291139 - i) = true ∧ 0 < 2147291139 - i ∧
        sub64 (2147291139 - i) 1 = 2147291139 - (i + 1)) ∧
    alignCond (2147291139 - 2147291139 % 16) = false) ∧
    alignSteps U64 2147291139 0 = some (2147291136, 3) :=
  ⟨by decide, alignLoop_iterations 2147291139 (by decide), by decide⟩

/-! ## The wait loop, status by status -/

theorem and_0x7f (x : Nat) : x &&& 0x7f = x % 128 := by
  have h := Nat.and_pow_two_sub_one_eq_mod x 7
  simpa using h

theorem and_0xff (x : Nat) : x &&& 0xff = x % 256 := by
  have h := Nat.and_pow_two_sub_one_eq_mod x 8
  simpa using h

/-- For a status word the three tests of `<sys/wait.h>` exclude each other:
a stop is neither an exit nor a termination. -/
theorem wait_status_exclusive (status : Nat) :
    (WIFSTOPPED status = true → WIFEXITED status = false ∧ WIFSIGNALED status = false) ∧
    (WIFEXITED status = true → WIFSIGNALED status = false) := by
  unfold WIFSTOPPED WIFEXITED WIFSIGNALED WTERMSIG
  rw [and_0x7f, and_0xff]
  constructor
  · intro h
    have h1 : status % 256 = 127 := by simpa using h
    have h2 : status % 128 = 127 := by omega
    simp [h2]
  · intro h
    have h1 : status % 128 = 0 := by simpa using h
    simp [h1]

theorem wait_loop_target (g_pid : Int) (e : WaitEvent) (es : List WaitEvent) (t t' : Regs) :
    wait_loop g_pid (e :: es) t = wait_loop g_pid (e :: es) t' := by
  rw [wait_loop, wait_loop]

theorem wait_loop_fault (g_pid : Int) (e : WaitEvent) (es : List WaitEvent) (t : Regs)
    (hwp : e.wp = g_pid) (h : e.isFault) :
    wait_loop g_pid (e :: es) t = (WaitExit.faulted, e.regs, [Call.waitpid]) := by
  obtain ⟨h1, h2⟩ := h
  have hsig : (e.wstopsig == SIGSEGV || e.wstopsig == SIGILL) = true := by
    rcases h2 with h2 | h2 <;> simp [h2]
  rw [wait_loop]
  simp [hwp, h1, hsig]

theorem wait_loop_gone (g_pid : Int) (e : WaitEvent) (es : List WaitEvent) (t : Regs)
    (hwp : e.wp = g_pid) (h : e.isGone) :
    wait_loop g_pid (e :: es) t
      = (WaitExit.failed (if e.wifexited = true then Failure.exited else Failure.terminated),
          e.regs, [Call.waitpid]) := by
  obtain ⟨h1, h2⟩ := h
  rw [wait_loop]
  by_cases hx : e.wifexited = true
  · simp [hwp, h1, hx]
  · have hs : e.wifsignaled = true := by
      rcases h2 with h2 | h2
      · exact absurd h2 hx
      · exact h2
    simp [hwp, h1, hx, hs]

theorem wait_loop_other (g_pid : Int) (e : WaitEvent) (es : List WaitEvent) (t : Regs)
    (hwp : e.wp = g_pid) (h : e.isOtherStop) (hcont : e.cont ≠ -1) :
    wait_loop g_pid (e :: es) t
      = ((wait_loop g_pid es e.regs).1, (wait_loop g_pid es e.regs).2.1,
          Call.waitpid :: Call.cont 0 :: (wait_loop g_pid es e.regs).2.2) := by
  obtain ⟨h1, h2, h3, h4, h5⟩ := h
  rw [wait_loop]
  simp [hwp, h1, h2, h3, h4, h5, hcont]

/-- The loop absorbs a run of other stops: it answers each with a
`PTRACE_CONT` with signal 0 and goes on with the next status. -/
theorem wait_loop_absorbs (g_pid : Int) (e : WaitEvent) (post : List WaitEvent) :
    ∀ (pre : List WaitEvent) (t : Regs),
      (∀ p ∈ pre, p.wp = g_pid ∧ p.isOtherStop ∧ p.cont ≠ -1) →
      wait_loop g_pid (pre ++ e :: post) t
        = ((wait_loop g_pid (e :: post) t).1, (wait_loop g_pid (e :: post) t).2.1,
            resumed pre ++ (wait_loop g_pid (e :: post) t).2.2) := by
  intro pre
  induction pre with
  | nil => intro t _; rfl
  | cons p pre ih =>
    intro t hpre
    obtain ⟨h1, h2, h3⟩ := hpre p (List.mem_cons_self _ _)
    rw [List.cons_append, wait_loop_other g_pid p _ t h1 h2 h3,
      ih p.regs (fun q hq => hpre q (List.mem_cons_of_mem _ hq)),
      wait_loop_target g_pid e post p.regs t]
    rfl

theorem after_after (r : Result) (a b : List Call) : (r.after a).after b = r.after (b ++ a) := by
  simp [Result.after, List.append_assoc]

theorem install_reaches_wait (w : World) (o m : Regs) (a : Nat)
    (hw : write_memory w.process_vm_writev 8 = 0) (hset : w.setregs ≠ -1) :
    remote_call_install w o m a
      = (remote_call_wait w o (work_registers m a)).after
          [Call.write (work_registers m a).rsp 0 8, Call.setregs (work_registers m a)] := by
  unfold remote_call_install
  simp only [hw, hset, ne_eq, not_true_eq_false, if_false]
  rfl

theorem prepare_reaches_wait (w : World) (a : Nat) (count : Int) (args : List Nat) (work : Regs)
    (h : installed (remote_call_prepare w a count args).trace = some work)
    (hset : w.setregs ≠ -1) :
    remote_call_prepare w a count args
      = (remote_call_wait w w.target work).after
          [Call.getregs, Call.write work.rsp 0 8, Call.setregs work] := by
  rw [installed_prepare] at h
  unfold remote_call_prepare
  by_cases h1 : w.getregs = -1
  · simp [h1] at h
  · simp only [h1, if_false] at h ⊢
    rcases ha : alignLoop U64 w.target.rsp with _ | rsp
    · rw [ha] at h; simp at h
    · rw [ha] at h
      simp only at h ⊢
      rcases hm : marshalLoop count 6 args { w.target with rsp := rsp } with _ | m
      · rw [hm] at h; simp at h
      · rw [hm] at h
        simp only at h
        by_cases h3 : write_memory w.process_vm_writev 8 = 0
        · simp only [h3, if_true, Option.some.injEq] at h
          simp only
          rw [install_reaches_wait w w.target m a h3 hset, after_after, h]
          rfl
        · simp [h3] at h

/-- Once the working registers are installed, `remote_call` is its first three
system calls followed by the resume-and-wait step. -/
theorem remote_call_reaches_wait (w : World) (fp : Nat) (count : Int) (args : List Nat)
    (work : Regs)
    (h : installed (remote_call w fp count args).trace = some work)
    (hset : w.setregs ≠ -1) :
    remote_call w fp count args
      = (remote_call_wait w w.target work).after
          [Call.getregs, Call.write work.rsp 0 8, Call.setregs work] := by
  rw [installed_remote_call] at h
  unfold remote_call
  rcases hm : get_local_module_name w.maps w.getpid fp with name | _ | _
  · rw [hm] at h
    simp only at h ⊢
    by_cases h1 : get_remote_function_address w.maps w.g_pid name fp = 1
    · simp [h1] at h
    · simp only [h1, if_false] at h ⊢
      exact prepare_reaches_wait w _ count args work h hset
  · rw [hm] at h; simp at h
  · rw [hm] at h; simp at h

theorem resumed_setregs (pre : List WaitEvent) : setregsCalls (resumed pre) = [] := by
  induction pre with
  | nil => rfl
  | cons p pre ih => simp [resumed, setregsCalls, ih]

/-- For a report built from a status word, a stop with a signal other than
`SIGSEGV` and `SIGILL` is an other stop, and an exit or a termination is not
a stop. -/
theorem ofStatus_kinds (wp : Int) (status : Nat) (regs : Regs) (cont : Int) :
    ((WaitEvent.ofStatus wp status regs cont).wifstopped = true →
      (WaitEvent.ofStatus wp status regs cont).wstopsig ≠ SIGSEGV →
      (WaitEvent.ofStatus wp status regs cont).wstopsig ≠ SIGILL →
      (WaitEvent.ofStatus wp status regs cont).isOtherStop) ∧
    ((WaitEvent.ofStatus wp status regs cont).wifexited = true ∨
      (WaitEvent.ofStatus wp status regs cont).wifsignaled = true →
      (WaitEvent.ofStatus wp status regs cont).isGone) := by
  have hx := wait_status_exclusive status
  simp only [WaitEvent.ofStatus, WaitEvent.isOtherStop, WaitEvent.isGone]
  constructor
  · intro h1 h2 h3
    exact ⟨h1, h2, h3, (hx.1 h1).1, (hx.1 h1).2⟩
  · intro h
    refine ⟨?_, h⟩
    cases hs : WIFSTOPPED status with
    | false => rfl
    | true =>
      have h1 := hx.1 hs
      rcases h with h | h
      · rw [h1.1] at h
        exact absurd h (by decide)
      · rw [h1.2] at h
        exact absurd h (by decide)

/-- C11. The wait loop over the statuses `waitpid` reports after the target
is resumed (each reported for `g_pid`): every status that is a stop with a
signal other than `SIGSEGV` and `SIGILL` is answered with a `PTRACE_CONT`
passing signal 0 and the loop keeps waiting, with no `PTRACE_SETREGS` issued;
at the first status that is a stop with `SIGSEGV` or `SIGILL` the loop is
left and `remote_call` goes on to harvest and restore; at the first status
that reports an exit or a termination `remote_call` returns 1. -/
theorem remote_call_wait_loop (w : World) (function_pointer : Nat) (count : Int)
    (args : List Nat) (work : Regs) (pre : List WaitEvent) (e : WaitEvent)
    (post : List WaitEvent)
    (hinst : installed (remote_call w function_pointer count args).trace = some work)
    (hset : w.setregs ≠ -1) (hcont : w.cont ≠ -1)
    (hwaits : w.waits = pre ++ e :: post)
    (hpre : ∀ p ∈ pre, p.wp = w.g_pid ∧ p.isOtherStop ∧ p.cont ≠ -1)
    (hwp : e.wp = w.g_pid) :
    (e.isFault →
      wait_loop w.g_pid w.waits work
        = (WaitExit.faulted, e.regs, resumed pre ++ [Call.waitpid]) ∧
      remote_call w function_pointer count args
        = (remote_call_restore w w.target e.regs).after
            ([Call.getregs, Call.write work.rsp 0 8, Call.setregs work, Call.cont 0]
              ++ resumed pre ++ [Call.waitpid])) ∧
    (e.isGone →
      wait_loop w.g_pid w.waits work
        = (WaitExit.failed (if e.wifexited = true then Failure.exited else Failure.terminated),
            e.regs, resumed pre ++ [Call.waitpid]) ∧
      (remote_call w function_pointer count args).outcome
        = Outcome.error (if e.wifexited = true then Failure.exited else Failure.terminated) ∧
      (remote_call w function_pointer count args).outcome.returned = some 1 ∧
      (remote_call w function_pointer count args).trace
        = [Call.getregs, Call.write work.rsp 0 8, Call.setregs work, Call.cont 0]
            ++ resumed pre ++ [Call.waitpid]) ∧
    setregsCalls (resumed pre) = [] := by
  have habs := wait_loop_absorbs w.g_pid e post pre work hpre
  rw [← hwaits] at habs
  have hreach := remote_call_reaches_wait w function_pointer count args work hinst hset
  refine ⟨?_, ?_, resumed_setregs pre⟩
  · intro hf
    have hstep := wait_loop_fault w.g_pid e post work hwp hf
    rw [hstep] at habs
    refine ⟨habs, ?_⟩
    rw [hreach]
    unfold remote_call_wait
    rw [if_neg hcont, habs]
    simp only
    rw [after_after]
    simp
  · intro hg
    have hstep := wait_loop_gone w.g_pid e post work hwp hg
    rw [hstep] at habs
    have hwait : remote_call_wait w w.target work
        = ⟨Outcome.error (if e.wifexited = true then Failure.exited else Failure.terminated),
            e.regs, Call.cont 0 :: (resumed pre ++ [Call.waitpid])⟩ := by
      unfold remote_call_wait
      rw [if_neg hcont, habs]
    refine ⟨habs, ?_, ?_, ?_⟩
    · rw [hreach, hwait]
      rfl
    · rw [hreach, hwait]
      rfl
    · rw [hreach, hwait]
      simp [Result.after]

/-- Witness of C11: a `SIGCHLD` stop is absorbed with `PTRACE_CONT` 0, then
the `SIGSEGV` stop ends the loop and 77 is returned; in the second session
the exit after the `SIGCHLD` stop makes `remote_call` return 1. -/
theorem remote_call_wait_loop_witness :
    installed (remote_call exampleWorldSignal exampleFunction 6 [1, 2, 3, 4, 5, 6]).trace
      = some exampleWork ∧
    exampleWorldSignal.setregs ≠ -1 ∧ exampleWorldSignal.cont ≠ -1 ∧
    exampleWorldSignal.waits = [exampleOtherStop] ++ exampleFault :: [] ∧
    (∀ p ∈ [exampleOtherStop],
      p.wp = exampleWorldSignal.g_pid ∧ p.isOtherStop ∧ p.cont ≠ -1) ∧
    exampleFault.wp = exampleWorldSignal.g_pid ∧
    exampleFault.isFault ∧
    wait_loop exampleWorldSignal.g_pid exampleWorldSignal.waits exampleWork
      = (WaitExit.faulted, exampleFault.regs, resumed [exampleOtherStop] ++ [Call.waitpid]) ∧
    resumed [exampleOtherStop] = [Call.waitpid, Call.cont 0] ∧
    (remote_call exampleWorldSignal exampleFunction 6 [1, 2, 3, 4, 5, 6]).outcome
      = Outcome.value 77 ∧
    exampleExit.isGone ∧
    (remote_call exampleWorldExit exampleFunction 6 [1, 2, 3, 4, 5, 6]).outcome.returned
      = some 1 :=
  ⟨by decide, by decide, by decide, rfl, by decide, by decide, by decide,
    ((remote_call_wait_loop exampleWorldSignal exampleFunction 6 [1, 2, 3, 4, 5, 6] exampleWork
      [exampleOtherStop] exampleFault [] (by decide) (by decide) (by decide) rfl (by decide)
      (by decide)).1 (by decide)).1,
    by decide, by decide, by decide,
    ((remote_call_wait_loop exampleWorldExit exampleFunction 6 [1, 2, 3, 4, 5, 6] exampleWork
      [exampleOtherStop] exampleExit [] (by decide) (by decide) (by decide) rfl (by decide)
      (by decide)).2.1 (by decide)).2.2.1⟩

end PtraceInjector
